import Mathlib

set_option maxRecDepth 2000

/-!
Verification development for the computational core of a 2D Euler-Bernoulli
beam analyzer (mesh generation, stiffness assembly, fixed-end-action load
equivalencing, constrained linear solve with singularity detection, reaction
recovery, and diagram reconstruction).

The definitions below are a shallow embedding of the TypeScript source
(`Node`, `Element`, `Load`, `StiffnessMatrix.beam2D`, `BeamAnalysisService`,
`FemSolver.solve`, `DiagramCalculator.calculateDiagrams`) over exact rational
arithmetic.  IEEE-754 doubles are modelled by `ℚ`; the external linear solver
(`mathjs.lusolve`) is modelled by the exact solution of the linear system
(computed by Cramer's rule), matching the specification's step
`u[free] = K_ff⁻¹ · F_f`.  JavaScript's `Map`/`Set`/object semantics are
modelled by association lists (`Map.set` overwrites: last write wins;
`Set` deduplicates exact values only).  Node and load ids are opaque strings
in the source, modelled as natural numbers; the unused `_el{i}` suffix on
per-element load ids is elided since ids never influence computation.
Accumulation loops (`+=` into matrix/vector cells, conditional `push` into
arrays) are modelled as folds/pointwise sums, which is their exact semantics
over `ℚ`.
-/

namespace BeamApp

/-- Absolute value on rationals, modelling `Math.abs`. -/
def qabs (q : ℚ) : ℚ := if q < 0 then -q else q

/-- Support types of a node (`SupportType` in `Node.ts`). -/
inductive SupportType
  | Free
  | Roller
  | Pin
  | Fixed
deriving DecidableEq, Repr

/-- A mesh node (`Node` in `Node.ts`): id, axial coordinate, support. -/
structure Node where
  id : ℕ
  x : ℚ
  support : SupportType
deriving DecidableEq, Repr

/-- `Node.isRestrainedY`: vertical DOF restrained iff support is not `Free`. -/
def Node.isRestrainedY (n : Node) : Bool := n.support != SupportType.Free

/-- `Node.isRestrainedRotation`: rotational DOF restrained iff support is `Fixed`. -/
def Node.isRestrainedRotation (n : Node) : Bool := n.support == SupportType.Fixed

/-- A beam element between two nodes (`Element` in `Element.ts`). -/
structure Element where
  id : ℕ
  startNode : Node
  endNode : Node
  E : ℚ
  I : ℚ
deriving DecidableEq, Repr

/-- `Element.length`: absolute distance between the endpoint coordinates. -/
def Element.length (el : Element) : ℚ := qabs (el.endNode.x - el.startNode.x)

/-- Local 4x4 Euler-Bernoulli beam stiffness matrix (`StiffnessMatrix.beam2D`),
DOF ordering `[v1, theta1, v2, theta2]`.  The source throws for non-positive
`E`, `I`, `L`; that guard is performed by `solve` below (assembly is the first
place `beam2D` is invoked in an analysis). -/
def beam2D (E I L : ℚ) : List (List ℚ) :=
  let L2 := L * L
  let L3 := L * L * L
  let kTrans := 12 * E * I / L3
  let kRot := 4 * E * I / L
  let kCross := 6 * E * I / L2
  let kRotFar := 2 * E * I / L
  [[kTrans, kCross, -kTrans, kCross],
   [kCross, kRot, -kCross, kRotFar],
   [-kTrans, -kCross, kTrans, -kCross],
   [kCross, kRotFar, -kCross, kRot]]

/-- Load categories (`LoadCategory` in `Load.ts`). -/
inductive LoadCategory
  | Dead
  | Live
  | Wind
  | Snow
  | Seismic
deriving DecidableEq, Repr

/-- Load type tags (`LoadType` in `Load.ts`). -/
inductive LoadType
  | PointForce
  | DistributedForce
  | PointMoment
deriving DecidableEq, Repr

/-- Domain-level loads (`PointForceLoad`, `PointMomentLoad`,
`DistributedForceLoad` in `Load.ts`), as a tagged sum. -/
inductive Load
  | pointForce (id : ℕ) (magnitude : ℚ) (x : ℚ) (category : LoadCategory)
  | pointMoment (id : ℕ) (magnitude : ℚ) (x : ℚ) (category : LoadCategory)
  | distributedForce (id : ℕ) (magnitude : ℚ) (startX : ℚ) (endX : ℚ)
      (category : LoadCategory)
deriving DecidableEq, Repr

/-- Category of a domain load. -/
def Load.category : Load → LoadCategory
  | .pointForce _ _ _ c => c
  | .pointMoment _ _ _ c => c
  | .distributedForce _ _ _ _ c => c

/-- User-level load DTO (`BeamLoadInput`): positional fields are optional and
checked defensively (`typeof ... === 'number'`) in the source. -/
structure BeamLoadInput where
  id : ℕ
  type : LoadType
  magnitude : ℚ
  x : Option ℚ
  startX : Option ℚ
  endX : Option ℚ
  category : Option LoadCategory
deriving DecidableEq, Repr

/-- A user-level support entry of `BeamInput`. -/
structure Support where
  x : ℚ
  type : SupportType
deriving DecidableEq, Repr

/-- The input DTO of `BeamAnalysisService.analyze`. -/
structure BeamInput where
  length : ℚ
  E : ℚ
  I : ℚ
  supports : List Support
  loads : List BeamLoadInput
deriving DecidableEq, Repr

/-- Tolerance `1e-4` (support/coordinate matching in the mesh builder and the
distributed-load overlap test). -/
def epsMerge : ℚ := 1 / 10000

/-- Tolerance `1e-6` (element-length guard). -/
def epsGeom : ℚ := 1 / 1000000

/-- Tolerance `1e-3` (node search for load placement in the solver, and the
diagram calculator's tolerance). -/
def epsFind : ℚ := 1 / 1000

/-- The feature coordinates collected by `generateMesh`: `0`, `length`, the
support coordinates and every positional field present on any load (the
source adds `l.x`, `l.startX`, `l.endX` whenever present, irrespective of the
load's type tag). -/
def collectPoints (input : BeamInput) : List ℚ :=
  [0, input.length] ++ input.supports.map (·.x) ++
    input.loads.flatMap (fun l => l.x.toList ++ l.startX.toList ++ l.endX.toList)

/-- The sorted in-range coordinate list of `generateMesh`:
`Array.from(new Set(points)).sort((a,b) => a-b).filter(x => 0 <= x <= L)`.
A JavaScript `Set` deduplicates exact values only; `List.dedup` keeps one
occurrence of each value, and after sorting the result is the same list. -/
def meshCoords (input : BeamInput) : List ℚ :=
  (List.insertionSort (· ≤ ·) (collectPoints input).dedup).filter
    (fun x => decide (0 ≤ x ∧ x ≤ input.length))

/-- Support-type lookup for a node coordinate:
`supports.find(s => Math.abs(s.x - x) < 1e-4)`, else `Free`. -/
def supportAt (supports : List Support) (x : ℚ) : SupportType :=
  match supports.find? (fun s => decide (qabs (s.x - x) < epsMerge)) with
  | some s => s.type
  | none => SupportType.Free

/-- The node list of `generateMesh`: node `i` is placed at the `i`-th sorted
coordinate (ids `n0, n1, ...` modelled as `0, 1, ...`). -/
def meshNodes (input : BeamInput) : List Node :=
  (meshCoords input).mapIdx (fun i x => ⟨i, x, supportAt input.supports x⟩)

/-- The element list of `generateMesh`: one element per consecutive node pair
whose coordinates differ by more than `1e-6` (ids `e{i}` use the loop index,
modelled as the index argument). -/
def buildElements (E I : ℚ) : ℕ → List Node → List Element
  | _, [] => []
  | i, a :: rest =>
    (match rest with
     | [] => []
     | b :: _ => if qabs (b.x - a.x) > epsGeom then [Element.mk i a b E I] else []) ++
      buildElements E I (i + 1) rest

/-- The result of `generateMesh`. -/
structure Mesh where
  nodes : List Node
  elements : List Element
deriving DecidableEq, Repr

/-- `BeamAnalysisService.generateMesh`. -/
def generateMesh (input : BeamInput) : Mesh :=
  let nodes := meshNodes input
  ⟨nodes, buildElements input.E input.I 0 nodes⟩

/-- `BeamAnalysisService.processLoads` for a single raw load: point loads with
a present `x` pass through; a distributed load with present endpoints `[a,b]`
is split into one per-element `DistributedForceLoad` for every element `el`
with `el.startX >= a - 1e-4` and `el.endX <= b + 1e-4`; everything else is
dropped. -/
def processOne (elements : List Element) (raw : BeamLoadInput) : List Load :=
  let category := raw.category.getD LoadCategory.Dead
  match raw.type with
  | LoadType.PointForce =>
    match raw.x with
    | some x0 => [Load.pointForce raw.id raw.magnitude x0 category]
    | none => []
  | LoadType.PointMoment =>
    match raw.x with
    | some x0 => [Load.pointMoment raw.id raw.magnitude x0 category]
    | none => []
  | LoadType.DistributedForce =>
    match raw.startX, raw.endX with
    | some a, some b =>
      elements.filterMap (fun el =>
        if a - epsMerge ≤ el.startNode.x ∧ el.endNode.x ≤ b + epsMerge
        then some (Load.distributedForce raw.id raw.magnitude el.startNode.x
          el.endNode.x category)
        else none)
    | _, _ => []

/-- `BeamAnalysisService.processLoads`. -/
def processLoads (inputs : List BeamLoadInput) (elements : List Element) : List Load :=
  inputs.flatMap (processOne elements)

/-- The solver's `nodeIndexMap` (a JavaScript `Map` built by
`nodes.forEach((node, i) => map.set(node.id, i))`; a repeated id keeps the
last index, a missing id — dereferenced with `!` in the source — is modelled
by the junk value `0`). -/
def nodeIndexMap (nodes : List Node) (id : ℕ) : ℕ :=
  (((nodes.enum.filter (fun p => p.2.id = id)).getLast?).map (·.1)).getD 0

/-- The four global DOF indices of an element:
`[2i, 2i+1, 2j, 2j+1]` for endpoint node indices `i`, `j`. -/
def dofIndices (nodes : List Node) (el : Element) : List ℕ :=
  let i := nodeIndexMap nodes el.startNode.id
  let j := nodeIndexMap nodes el.endNode.id
  [2 * i, 2 * i + 1, 2 * j, 2 * j + 1]

/-- Entry `(a,b)` of an element's local stiffness matrix. -/
def localEntry (el : Element) (a b : ℕ) : ℚ :=
  ((beam2D el.E el.I el.length).getD a []).getD b 0

/-- One element's scatter-add into the global stiffness matrix
(`K[dof[a], dof[b]] += kLocal[a][b]` for `a, b` in `0..3`). -/
def addElementK (nodes : List Node) (K : ℕ → ℕ → ℚ) (el : Element) : ℕ → ℕ → ℚ :=
  fun r c => K r c +
    ((List.range 4).map (fun a =>
      ((List.range 4).map (fun b =>
        if (dofIndices nodes el).getD a 0 = r ∧ (dofIndices nodes el).getD b 0 = c
        then localEntry el a b else 0)).sum)).sum

/-- The assembled global stiffness matrix `K` (as a total function; entries
outside `[0, 2N)` are `0`). -/
def assembleK (nodes : List Node) (elements : List Element) : ℕ → ℕ → ℚ :=
  elements.foldl (addElementK nodes) (fun _ _ => 0)

/-- `nodes.find(n => Math.abs(n.x - x) < 1e-3)`: the first node within `1e-3`
of a load coordinate. -/
def findNodeNear (nodes : List Node) (x : ℚ) : Option Node :=
  nodes.find? (fun n => decide (qabs (n.x - x) < epsFind))

/-- One load's contribution pass over the global force vector `F`
(the solver's `loads.forEach` body): point loads add at the vertical/rotation
DOF of the first node within `1e-3` (dropped when none is found); a
distributed load over `[a,b]` of span `L > 1e-6` adds the fixed-end actions
`wL/2` at both endpoint vertical DOFs and `±wL²/12` at the endpoint rotation
DOFs, via nodes found within `1e-3` of `a` and `b` (dropped when either is
missing). -/
def addLoadF (nodes : List Node) (F : ℕ → ℚ) (load : Load) : ℕ → ℚ :=
  match load with
  | Load.pointForce _ mag x _ =>
    match findNodeNear nodes x with
    | some node => fun d => if d = 2 * nodeIndexMap nodes node.id then F d + mag else F d
    | none => F
  | Load.pointMoment _ mag x _ =>
    match findNodeNear nodes x with
    | some node => fun d => if d = 2 * nodeIndexMap nodes node.id + 1 then F d + mag else F d
    | none => F
  | Load.distributedForce _ w a b _ =>
    let L := b - a
    if L ≤ epsGeom then F
    else
      match findNodeNear nodes a, findNodeNear nodes b with
      | some s, some e =>
        let i := nodeIndexMap nodes s.id
        let j := nodeIndexMap nodes e.id
        fun d => F d + (if d = 2 * i then w * L / 2 else 0)
                     + (if d = 2 * i + 1 then w * L * L / 12 else 0)
                     + (if d = 2 * j then w * L / 2 else 0)
                     + (if d = 2 * j + 1 then -(w * L * L) / 12 else 0)
      | _, _ => F

/-- The assembled global force vector `F`. -/
def assembleF (nodes : List Node) (loads : List Load) : ℕ → ℚ :=
  loads.foldl (addLoadF nodes) (fun _ => 0)

/-- The ordered list of free DOFs: per node (in order), the vertical DOF `2i`
when `isRestrainedY` is false, then the rotational DOF `2i+1` when
`isRestrainedRotation` is false. -/
def freeDofs (nodes : List Node) : List ℕ :=
  nodes.enum.flatMap (fun p =>
    (if p.2.isRestrainedY then [] else [2 * p.1]) ++
      (if p.2.isRestrainedRotation then [] else [2 * p.1 + 1]))

/-- Executable determinant by Laplace expansion along the first row
(used to model `mathjs.det` exactly). -/
def detL : (n : ℕ) → Matrix (Fin n) (Fin n) ℚ → ℚ
  | 0, _ => 1
  | n + 1, M =>
    ∑ j : Fin (n + 1), (-1) ^ (j : ℕ) * M 0 j * detL n (M.submatrix Fin.succ j.succAbove)

/-- The free-free stiffness submatrix `K_ff = K[free, free]`. -/
def Kff (nodes : List Node) (elements : List Element) :
    Matrix (Fin (freeDofs nodes).length) (Fin (freeDofs nodes).length) ℚ :=
  Matrix.of fun i j => assembleK nodes elements ((freeDofs nodes).get i) ((freeDofs nodes).get j)

/-- The free part `F_f = F[free]` of the force vector. -/
def Ff (nodes : List Node) (loads : List Load) : Fin (freeDofs nodes).length → ℚ :=
  fun i => assembleF nodes loads ((freeDofs nodes).get i)

/-- Exact solution of `A · x = b` by Cramer's rule (the model of
`mathjs.lusolve` on a matrix that passed the determinant check; the
specification states `u[free] = K_ff⁻¹ · F_f`). -/
def cramerSolve (n : ℕ) (A : Matrix (Fin n) (Fin n) ℚ) (b : Fin n → ℚ) : Fin n → ℚ :=
  fun i => detL n (A.updateColumn i b) / detL n A

/-- Scatter of the free-DOF solution into the global displacement vector
(fixed DOFs stay at `0`). -/
def globalU (nodes : List Node) (df : Fin (freeDofs nodes).length → ℚ) : ℕ → ℚ :=
  fun d => if h : d ∈ freeDofs nodes
           then df ⟨(freeDofs nodes).indexOf d, List.indexOf_lt_length.mpr h⟩
           else 0

/-- The equilibrium residual `R = K·u − F`. -/
def residual (nodes : List Node) (elements : List Element) (loads : List Load)
    (u : ℕ → ℚ) : ℕ → ℚ :=
  fun r =>
    ((List.range (2 * nodes.length)).map (fun c => assembleK nodes elements r c * u c)).sum
      - assembleF nodes loads r

/-- Per-node displacement record of the results. -/
structure NodeDisp where
  y : ℚ
  rotation : ℚ
deriving DecidableEq, Repr

/-- Per-node reaction record of the results. -/
structure NodeReaction where
  fy : ℚ
  m : ℚ
deriving DecidableEq, Repr

/-- `AnalysisResults`: displacements for every node; reactions only for nodes
with some restraint (association lists keyed by node id, in node order). -/
structure AnalysisResults where
  displacements : List (ℕ × NodeDisp)
  reactions : List (ℕ × NodeReaction)
deriving DecidableEq, Repr

/-- Errors an analysis can raise: `invalidStiffness` models the
`StiffnessMatrix.beam2D` throws (non-positive `L`, `E` or `I`);
`unstableStructure` models `"Structure is unstable or creates a mechanism."`. -/
inductive BeamError
  | invalidStiffness
  | unstableStructure
deriving DecidableEq, Repr

/-- The result-export loop of `FemSolver.solve`: displacements for all nodes;
a reactions entry exactly for each node with any restraint, with `fy = R[2i]`
when the vertical DOF is restrained (else `0`) and `m = R[2i+1]` when the
rotational DOF is restrained (else `0`). -/
def exportResults (nodes : List Node) (u R : ℕ → ℚ) : AnalysisResults :=
  { displacements := nodes.enum.map (fun p => (p.2.id, ⟨u (2 * p.1), u (2 * p.1 + 1)⟩)),
    reactions := nodes.enum.filterMap (fun p =>
      if p.2.isRestrainedY || p.2.isRestrainedRotation then
        some (p.2.id, ⟨if p.2.isRestrainedY then R (2 * p.1) else 0,
                       if p.2.isRestrainedRotation then R (2 * p.1 + 1) else 0⟩)
      else none) }

/-- The determinant threshold `1e-10` of the singularity guard. -/
def detThreshold : ℚ := 1 / 10000000000

/-- `FemSolver.solve`: assemble `K` (which throws for non-positive `L`, `E`,
`I` — checked first), assemble `F`, partition DOFs; if no DOF is free, all
displacements are zero; otherwise fail with `unstableStructure` when
`|det K_ff| < 1e-10`, else solve `K_ff · d_f = F_f` exactly; finally export
displacements and the reactions `R = K·u − F`.  (In exact arithmetic the
solution of a system with nonzero determinant is finite, so the source's
non-finiteness check never fires.) -/
def solve (nodes : List Node) (elements : List Element) (loads : List Load) :
    Except BeamError AnalysisResults :=
  if elements.any (fun el => decide (el.length ≤ 0 ∨ el.E ≤ 0 ∨ el.I ≤ 0)) then
    Except.error BeamError.invalidStiffness
  else if (freeDofs nodes).isEmpty then
    let u : ℕ → ℚ := fun _ => 0
    Except.ok (exportResults nodes u (residual nodes elements loads u))
  else
    let dtm := detL (freeDofs nodes).length (Kff nodes elements)
    if qabs dtm < detThreshold then Except.error BeamError.unstableStructure
    else
      let df := cramerSolve (freeDofs nodes).length (Kff nodes elements) (Ff nodes loads)
      let u := globalU nodes df
      Except.ok (exportResults nodes u (residual nodes elements loads u))

/-- `BeamAnalysisService.analyze`: mesh generation, load processing, solve. -/
def analyze (input : BeamInput) : Except BeamError AnalysisResults :=
  let mesh := generateMesh input
  let domainLoads := processLoads input.loads mesh.elements
  solve mesh.nodes mesh.elements domainLoads

/-! ### DiagramCalculator -/

/-- View modes of the diagram calculator. -/
inductive DiagramViewMode
  | dead
  | live
deriving DecidableEq, Repr

/-- One sample of a diagram. -/
structure DiagramPoint where
  x : ℚ
  value : ℚ
deriving DecidableEq, Repr

/-- The three diagrams returned by `calculateDiagrams`. -/
structure DiagramData where
  shearForce : List DiagramPoint
  bendingMoment : List DiagramPoint
  deformation : List DiagramPoint
deriving DecidableEq, Repr

/-- A point contribution (entry of the calculator's `pointForces` /
`pointMoments` arrays); `isReaction` models the `type: 'reaction' | 'load'`
tag. -/
structure PtContrib where
  x : ℚ
  mag : ℚ
  isReaction : Bool
deriving DecidableEq, Repr

/-- An entry of the calculator's `distLoads` array. -/
structure DistContrib where
  startX : ℚ
  endX : ℚ
  mag : ℚ
deriving DecidableEq, Repr

/-- JavaScript `Math.round` (half toward positive infinity). -/
def jsRound (q : ℚ) : ℤ := (q + 1 / 2).floor

/-- `[...nodes].sort((a, b) => a.x - b.x)` (a stable ascending sort). -/
def sortNodesByX (nodes : List Node) : List Node :=
  List.insertionSort (fun a b => a.x ≤ b.x) nodes

/-- Object lookup `reactions[node.id]`. -/
def reactionById (reactions : List (ℕ × NodeReaction)) (id : ℕ) : Option NodeReaction :=
  (reactions.find? (fun p => p.1 = id)).map (·.2)

/-- `Map.set` on the spatial key map (overwrite when the key is present,
append otherwise). -/
def posKeySet (m : List (ℤ × NodeReaction)) (k : ℤ) (v : NodeReaction) :
    List (ℤ × NodeReaction) :=
  if m.any (fun p => decide (p.1 = k)) then m.map (fun p => if p.1 = k then (k, v) else p)
  else m ++ [(k, v)]

/-- The calculator's spatial reaction map keyed by `Math.round(x * 1000)`. -/
def reactionByPos (sortedNodes : List Node) (reactions : List (ℕ × NodeReaction)) :
    List (ℤ × NodeReaction) :=
  sortedNodes.foldl (fun m node =>
    match reactionById reactions node.id with
    | some r => posKeySet m (jsRound (node.x * 1000)) r
    | none => m) []

/-- Reaction resolution for a node: by id first, then by rounded position
(the source's `reactionByPos.get(key)!` followed by `if (r)`). -/
def resolvedReaction (sortedNodes : List Node) (reactions : List (ℕ × NodeReaction))
    (node : Node) : Option NodeReaction :=
  match reactionById reactions node.id with
  | some r => some r
  | none =>
    ((reactionByPos sortedNodes reactions).find?
      (fun p => decide (p.1 = jsRound (node.x * 1000)))).map (·.2)

/-- The magnitude cutoff `1e-5` applied to ingested reactions and to
distributed-load magnitudes. -/
def cutoffSmall : ℚ := 1 / 100000

/-- One step of phase A of `calculateDiagrams`: push the node's resolved
reaction as a point force (when `|fy| > 1e-5`) and a point moment with
negated magnitude (when `|m| > 1e-5`). -/
def reactionStep (sortedNodes : List Node) (reactions : List (ℕ × NodeReaction))
    (acc : List PtContrib × List PtContrib) (node : Node) :
    List PtContrib × List PtContrib :=
  match resolvedReaction sortedNodes reactions node with
  | some r =>
    (acc.1 ++ (if qabs r.fy > cutoffSmall then [⟨node.x, r.fy, true⟩] else []),
     acc.2 ++ (if qabs r.m > cutoffSmall then [⟨node.x, -r.m, true⟩] else []))
  | none => acc

/-- Phase A of `calculateDiagrams`: walk the sorted nodes pushing reaction
contributions. -/
def reactionContribs (sortedNodes : List Node) (reactions : List (ℕ × NodeReaction)) :
    List PtContrib × List PtContrib :=
  sortedNodes.foldl (reactionStep sortedNodes reactions) ([], [])

/-- Phase B of `calculateDiagrams`: keep loads matching the view mode. -/
def filterByMode (loads : List Load) (viewMode : DiagramViewMode) : List Load :=
  loads.filter (fun l =>
    match viewMode with
    | DiagramViewMode.dead => decide (l.category = LoadCategory.Dead)
    | DiagramViewMode.live => decide (l.category = LoadCategory.Live))

/-- One step of phase C of `calculateDiagrams`: push one applied load into
the contribution arrays (distributed loads only when `|w| > 1e-5`). -/
def loadStep (acc : List PtContrib × List PtContrib × List DistContrib) (l : Load) :
    List PtContrib × List PtContrib × List DistContrib :=
  match l with
  | Load.pointForce _ mag x _ => (acc.1 ++ [⟨x, mag, false⟩], acc.2.1, acc.2.2)
  | Load.pointMoment _ mag x _ => (acc.1, acc.2.1 ++ [⟨x, mag, false⟩], acc.2.2)
  | Load.distributedForce _ mag a b _ =>
    if qabs mag > cutoffSmall then (acc.1, acc.2.1, acc.2.2 ++ [⟨a, b, mag⟩]) else acc

/-- Phase C of `calculateDiagrams`: push the filtered applied loads into the
contribution arrays. -/
def loadContribs (filteredLoads : List Load) :
    List PtContrib × List PtContrib × List DistContrib :=
  filteredLoads.foldl loadStep ([], [], [])

/-- Inclusion test for a point contribution at sample `x`:
left of the section within tolerance (`f.x <= x + eps`) and not at the right
edge of the beam (`!(f.x >= length - eps)`), with `eps = 1e-3`. -/
def includePt (length x fx : ℚ) : Prop :=
  fx ≤ x + epsFind ∧ ¬ (fx ≥ length - epsFind)

instance (length x fx : ℚ) : Decidable (includePt length x fx) := by
  unfold includePt
  infer_instance

/-- Shear contribution of one distributed load at sample `x`. -/
def distShearTerm (d : DistContrib) (x : ℚ) : ℚ :=
  if x > d.startX - epsFind then
    let effectiveEnd := min x d.endX
    let width := effectiveEnd - d.startX
    if width > 0 then d.mag * width else 0
  else 0

/-- Moment contribution of one distributed load at sample `x` (resultant times
lever arm about the section). -/
def distMomentTerm (d : DistContrib) (x : ℚ) : ℚ :=
  if x > d.startX - epsFind then
    let effectiveEnd := min x d.endX
    let width := effectiveEnd - d.startX
    if width > 0 then (d.mag * width) * (x - (d.startX + width / 2)) else 0
  else 0

/-- The shear sum `V` at sample `x` (method of sections). -/
def shearAt (pfs : List PtContrib) (ds : List DistContrib) (length x : ℚ) : ℚ :=
  (pfs.map (fun f => if includePt length x f.x then f.mag else 0)).sum
    + (ds.map (fun d => distShearTerm d x)).sum

/-- The bending-moment sum `M` at sample `x` (method of sections). -/
def momentAt (pfs pms : List PtContrib) (ds : List DistContrib) (length x : ℚ) : ℚ :=
  (pfs.map (fun f => if includePt length x f.x then f.mag * (x - f.x) else 0)).sum
    + (pms.map (fun pm => if includePt length x pm.x then pm.mag else 0)).sum
    + (ds.map (fun d => distMomentTerm d x)).sum

/-- Cosmetic cleanup: values with `|v| < 1e-4` snap to `0`. -/
def snapSmall (v : ℚ) : ℚ := if qabs v < 1 / 10000 then 0 else v

/-- Consecutive pairs of a list (the `j, j+1` traversal). -/
def consecPairs {α : Type} : List α → List (α × α)
  | [] => []
  | a :: rest =>
    (match rest with
     | [] => []
     | b :: _ => [(a, b)]) ++ consecPairs rest

/-- Displacement lookup `displacements[id]?.y || 0`. -/
def dispY (displacements : List (ℕ × NodeDisp)) (id : ℕ) : ℚ :=
  ((displacements.find? (fun p => p.1 = id)).map (·.2.y)).getD 0

/-- Displacement lookup `displacements[id]?.rotation || 0`. -/
def dispRot (displacements : List (ℕ × NodeDisp)) (id : ℕ) : ℚ :=
  ((displacements.find? (fun p => p.1 = id)).map (·.2.rotation)).getD 0

/-- First node interval containing `x` within tolerance `1e-3` (the
deformation loop breaks at the first hit). -/
def findSeg : List (Node × Node) → ℚ → Option (Node × Node)
  | [], _ => none
  | p :: rest, x =>
    if x ≥ p.1.x - epsFind ∧ x ≤ p.2.x + epsFind then some p else findSeg rest x

/-- Cubic Hermite interpolation of the deflection on one interval. -/
def hermiteVal (displacements : List (ℕ × NodeDisp)) (p : Node × Node) (x : ℚ) : ℚ :=
  let L := p.2.x - p.1.x
  let xi := (x - p.1.x) / L
  let v1 := dispY displacements p.1.id
  let th1 := dispRot displacements p.1.id
  let v2 := dispY displacements p.2.id
  let th2 := dispRot displacements p.2.id
  let xi2 := xi * xi
  let xi3 := xi2 * xi
  let N1 := 1 - 3 * xi2 + 2 * xi3
  let N2 := L * (xi - 2 * xi2 + xi3)
  let N3 := 3 * xi2 - 2 * xi3
  let N4 := L * (xi3 - xi2)
  N1 * v1 + N2 * th1 + N3 * v2 + N4 * th2

/-- Deflection at sample `x`: the first interval containing `x` within
`1e-3` is used; an interval shorter than `1e-6` aborts (value `0`), as does
finding no interval. -/
def deformAt (sortedNodes : List Node) (displacements : List (ℕ × NodeDisp)) (x : ℚ) : ℚ :=
  match findSeg (consecPairs sortedNodes) x with
  | some p => if p.2.x - p.1.x < epsGeom then 0 else hermiteVal displacements p x
  | none => 0

/-- The calculator's complete `pointForces` array: ingested reactions (phase
A) followed by the filtered applied point forces (phase C). -/
def diagramPointForces (nodes : List Node) (loads : List Load)
    (reactions : List (ℕ × NodeReaction)) (viewMode : DiagramViewMode) : List PtContrib :=
  (reactionContribs (sortNodesByX nodes) reactions).1 ++
    (loadContribs (filterByMode loads viewMode)).1

/-- The calculator's complete `pointMoments` array. -/
def diagramPointMoments (nodes : List Node) (loads : List Load)
    (reactions : List (ℕ × NodeReaction)) (viewMode : DiagramViewMode) : List PtContrib :=
  (reactionContribs (sortNodesByX nodes) reactions).2 ++
    (loadContribs (filterByMode loads viewMode)).2.1

/-- The calculator's `distLoads` array. -/
def diagramDistLoads (loads : List Load) (viewMode : DiagramViewMode) : List DistContrib :=
  (loadContribs (filterByMode loads viewMode)).2.2

/-- `DiagramCalculator.calculateDiagrams`: `resolution + 1` samples at
`x_i = i·length/resolution` of the shear force, bending moment and deflected
shape. -/
def calculateDiagrams (length : ℚ) (nodes : List Node) (loads : List Load)
    (reactions : List (ℕ × NodeReaction)) (displacements : List (ℕ × NodeDisp))
    (resolution : ℕ) (viewMode : DiagramViewMode) : DiagramData :=
  let step := length / (resolution : ℚ)
  let sortedNodes := sortNodesByX nodes
  let pfs := diagramPointForces nodes loads reactions viewMode
  let pms := diagramPointMoments nodes loads reactions viewMode
  let ds := diagramDistLoads loads viewMode
  { shearForce := (List.range (resolution + 1)).map (fun i : ℕ =>
      ⟨(i : ℚ) * step, snapSmall (shearAt pfs ds length ((i : ℚ) * step))⟩),
    bendingMoment := (List.range (resolution + 1)).map (fun i : ℕ =>
      ⟨(i : ℚ) * step, snapSmall (momentAt pfs pms ds length ((i : ℚ) * step))⟩),
    deformation := (List.range (resolution + 1)).map (fun i : ℕ =>
      ⟨(i : ℚ) * step, deformAt sortedNodes displacements ((i : ℚ) * step)⟩) }

/-! ### Claim-side definitions (quantities named by the specification) -/

/-- Sum of the exported vertical reactions (`0` for a failed analysis). -/
def reactionFySum : Except BeamError AnalysisResults → ℚ
  | Except.ok res => (res.reactions.map (fun p => p.2.fy)).sum
  | Except.error _ => 0

/-- The specification's applied-vertical-force total: point-force magnitudes
plus `w·(b−a)` for each distributed load (spec section 8, invariant 1). -/
def claimAppliedVertical (input : BeamInput) : ℚ :=
  (input.loads.map (fun l =>
    match l.type with
    | LoadType.PointForce => l.magnitude
    | LoadType.DistributedForce => l.magnitude * (l.endX.getD 0 - l.startX.getD 0)
    | LoadType.PointMoment => 0)).sum

/-- Well-placed load: a point force carries an `x` inside `[0, length]`; a
distributed load carries endpoints `a < b` inside `[0, length]` (spec
sections 3 and 6; point moments are unconstrained here since they carry no
vertical force). -/
def loadWellPlaced (len : ℚ) (l : BeamLoadInput) : Prop :=
  match l.type, l.x, l.startX, l.endX with
  | LoadType.PointForce, some x0, _, _ => 0 ≤ x0 ∧ x0 ≤ len
  | LoadType.PointForce, none, _, _ => False
  | LoadType.PointMoment, _, _, _ => True
  | LoadType.DistributedForce, _, some a, some b => a < b ∧ 0 ≤ a ∧ b ≤ len
  | LoadType.DistributedForce, _, _, _ => False

instance (len : ℚ) (l : BeamLoadInput) : Decidable (loadWellPlaced len l) := by
  unfold loadWellPlaced
  rcases l with ⟨i, ty, m, x, sx, ex, c⟩
  rcases ty <;> rcases x <;> rcases sx <;> rcases ex <;> dsimp only <;> infer_instance

/-- Pairwise separation of the collected feature coordinates: any two are
either equal or more than `eps` apart. -/
def FeatureSeparated (input : BeamInput) (eps : ℚ) : Prop :=
  (collectPoints input).Pairwise (fun a b => a = b ∨ eps < qabs (a - b))

/-- Reconstruction of the global displacement vector from the exported
per-node displacement map (DOF `2i` is the `y` of the node at position `i`,
DOF `2i+1` its `rotation`). -/
def dispVecOf (nodes : List Node) (res : AnalysisResults) : ℕ → ℚ :=
  fun d =>
    match nodes.get? (d / 2) with
    | some nd =>
      if d % 2 = 0 then dispY res.displacements nd.id else dispRot res.displacements nd.id
    | none => 0

/-! ### Concrete inputs used by witnesses and counterexamples -/

/-- A beam with a feature coordinate `4.99995` lying `5·10⁻⁵` to the left of
a distributed load's start `5`: the element `(4.99995, 5)` passes the
`1e-4`-tolerant containment test of `processLoads` although it lies outside
the load span `[5, 10]`. -/
def c1Input : BeamInput :=
  { length := 10, E := 1, I := 1,
    supports := [⟨0, SupportType.Fixed⟩, ⟨10, SupportType.Fixed⟩],
    loads := [⟨0, LoadType.PointForce, -100, some (99999 / 20000), none, none, none⟩,
              ⟨1, LoadType.DistributedForce, -1000, none, some 5, some 10, none⟩] }

/-- A plain fixed-fixed beam with a mid-span point load (all features well
separated). -/
def w1Input : BeamInput :=
  { length := 10, E := 1, I := 1,
    supports := [⟨0, SupportType.Fixed⟩, ⟨10, SupportType.Fixed⟩],
    loads := [⟨0, LoadType.PointForce, -100, some 5, none, none, some LoadCategory.Dead⟩] }

/-- The analysis results of `w1Input`. -/
def w1Res : AnalysisResults :=
  { displacements := [(0, ⟨0, 0⟩), (1, ⟨-3125 / 6, 0⟩), (2, ⟨0, 0⟩)],
    reactions := [(0, ⟨50, 125⟩), (2, ⟨50, -125⟩)] }

/-- The analysis results of `c1Input`: the two reaction `fy` values sum to
`5100.05`, while the applied vertical load is `-5100`. -/
def c1Res : AnalysisResults :=
  { displacements := [(0, ⟨0, 0⟩),
      (1, ⟨-17333749994799883333853344166649333 / 1280000000000000000000000000000,
           -83338533449998959977500052001 / 64000000000000000000000000⟩),
      (2, ⟨-8666916663233300667 / 640000000000000,
           -8332480002900147999 / 6400000000000000⟩),
      (3, ⟨0, 0⟩)],
    reactions := [(0, ⟨79003560032499947999 / 80000000000000000,
                       131005060021899543997 / 48000000000000000⟩),
                  (3, ⟨329000439967500052001 / 80000000000000000,
                       -281001939946899856003 / 48000000000000000⟩)] }

/-- A loaded beam without any support. -/
def w2Input : BeamInput :=
  { length := 1, E := 1, I := 1,
    supports := [],
    loads := [⟨0, LoadType.PointForce, -100, some 0, none, none, none⟩] }

/-- Two distinct supports `5·10⁻⁵ < 1e-4` apart. -/
def c3Input : BeamInput :=
  { length := 10, E := 1, I := 1,
    supports := [⟨0, SupportType.Pin⟩, ⟨1 / 20000, SupportType.Roller⟩],
    loads := [] }

/-- Two distinct supports within `1e-4` plus a tip load; the structure still
solves. -/
def c4Input : BeamInput :=
  { length := 10, E := 1, I := 1,
    supports := [⟨0, SupportType.Fixed⟩, ⟨1 / 20000, SupportType.Roller⟩],
    loads := [⟨0, LoadType.PointForce, -100, some 10, none, none, none⟩] }

/-- A cantilever with a point load at `x = 15`, outside the `[0, 10]` domain. -/
def c5Input : BeamInput :=
  { length := 10, E := 1, I := 1,
    supports := [⟨0, SupportType.Fixed⟩],
    loads := [⟨0, LoadType.PointForce, -100, some 15, none, none, none⟩] }

/-- A beam whose distributed load starts at `5.0005`, only `5·10⁻⁴ < 1e-3`
to the right of the mesh node at `5`. -/
def c6Input : BeamInput :=
  { length := 10, E := 1, I := 1,
    supports := [⟨0, SupportType.Fixed⟩, ⟨10, SupportType.Fixed⟩],
    loads := [⟨0, LoadType.PointForce, -100, some 5, none, none, none⟩,
              ⟨1, LoadType.DistributedForce, -1000, none, some (10001 / 2000), some 10, none⟩] }

/-- A simply supported beam with a distributed load over the full span,
features well separated. -/
def w6Input : BeamInput :=
  { length := 10, E := 1, I := 1,
    supports := [⟨0, SupportType.Pin⟩, ⟨10, SupportType.Roller⟩],
    loads := [⟨0, LoadType.DistributedForce, -1000, none, some 0, some 10, some LoadCategory.Dead⟩] }

/-- The raw distributed load of `w6Input`. -/
def w6Raw : BeamLoadInput :=
  ⟨0, LoadType.DistributedForce, -1000, none, some 0, some 10, some LoadCategory.Dead⟩

/-- The single mesh element of `w6Input`. -/
def w6El : Element :=
  ⟨0, ⟨0, 0, SupportType.Pin⟩, ⟨1, 10, SupportType.Roller⟩, 1, 1⟩

/-- Three diagram nodes whose last two are only `5·10⁻⁴ < 1e-3` apart. -/
def c9Nodes : List Node :=
  [⟨0, 0, SupportType.Pin⟩, ⟨1, 5, SupportType.Free⟩, ⟨2, 10001 / 2000, SupportType.Roller⟩]

/-- Displacements for `c9Nodes` with distinct nodal values. -/
def c9Disp : List (ℕ × NodeDisp) := [(0, ⟨0, 0⟩), (1, ⟨1, 0⟩), (2, ⟨2, 0⟩)]

/-- Well-separated diagram nodes for the Hermite-consistency witness. -/
def w9Nodes : List Node :=
  [⟨0, 0, SupportType.Pin⟩, ⟨1, 5, SupportType.Free⟩, ⟨2, 10, SupportType.Roller⟩]

/-- Displacements for `w9Nodes`. -/
def w9Disp : List (ℕ × NodeDisp) := [(0, ⟨0, 0⟩), (1, ⟨7, 2⟩), (2, ⟨0, 0⟩)]

/-- Reactions with one component below the `1e-5` diagram cutoff. -/
def w10Reactions : List (ℕ × NodeReaction) :=
  [(0, ⟨1 / 200000, 3⟩), (2, ⟨7, 1 / 1000000⟩)]

/-- A two-node cantilever mesh for the reaction-export witness. -/
def w7Nodes : List Node := [⟨0, 0, SupportType.Fixed⟩, ⟨1, 1, SupportType.Free⟩]

/-- The single element of `w7Nodes`. -/
def w7Elements : List Element :=
  [⟨0, ⟨0, 0, SupportType.Fixed⟩, ⟨1, 1, SupportType.Free⟩, 1, 1⟩]

/-- The (all-zero) result of solving `w7Nodes` with no loads. -/
def w7Res : AnalysisResults :=
  { displacements := [(0, ⟨0, 0⟩), (1, ⟨0, 0⟩)], reactions := [(0, ⟨0, 0⟩)] }

/-! ## Helper lemmas -/

theorem qabs_eq_abs (q : ℚ) : qabs q = |q| := by
  unfold qabs
  split
  · exact (abs_of_neg (by assumption)).symm
  · exact (abs_of_nonneg (le_of_not_lt (by assumption))).symm

theorem meshCoords_nodup (input : BeamInput) : (meshCoords input).Nodup := by
  unfold meshCoords
  exact (((List.perm_insertionSort (· ≤ ·) _).nodup_iff).mpr
    (List.nodup_dedup _)).filter _

theorem meshCoords_sorted_le (input : BeamInput) :
    List.Sorted (· ≤ ·) (meshCoords input) :=
  (List.sorted_insertionSort (· ≤ ·) _).filter _

theorem meshCoords_sorted_lt (input : BeamInput) :
    List.Sorted (· < ·) (meshCoords input) :=
  ((meshCoords_sorted_le input).and (meshCoords_nodup input)).imp
    (fun h => lt_of_le_of_ne h.1 h.2)

theorem mem_meshCoords {input : BeamInput} {x : ℚ} :
    x ∈ meshCoords input ↔ x ∈ collectPoints input ∧ 0 ≤ x ∧ x ≤ input.length := by
  unfold meshCoords
  rw [List.mem_filter, (List.perm_insertionSort (· ≤ ·) _).mem_iff, List.mem_dedup]
  simp

theorem meshNodes_eq_enum_map (input : BeamInput) :
    meshNodes input = (meshCoords input).enum.map
      (fun p => ⟨p.1, p.2, supportAt input.supports p.2⟩) := by
  unfold meshNodes
  rw [List.mapIdx_eq_enum_map]
  rfl

theorem meshNodes_map_x (input : BeamInput) :
    (meshNodes input).map Node.x = meshCoords input := by
  rw [meshNodes_eq_enum_map, List.map_map]
  exact List.enum_map_snd _

theorem generateMesh_nodes (input : BeamInput) :
    (generateMesh input).nodes = meshNodes input := rfl

theorem generateMesh_elements (input : BeamInput) :
    (generateMesh input).elements = buildElements input.E input.I 0 (meshNodes input) := rfl

/-! ## Claim C3: mesh coordinate merging -/

/-- C3 (amended): the mesh builder retains the collected feature coordinates
lying in `[0, Ltot]`, sorts them strictly ascending and removes exact
duplicates only (JavaScript `Set` semantics).  There is no `1e-4` merging of
nearby coordinates: the emitted node coordinates are exactly the distinct
in-range collected values; the `1e-4` tolerance is used only to match support
entries to nodes. -/
theorem C3_mesh_exact_dedup (input : BeamInput) :
    List.Sorted (· < ·) ((generateMesh input).nodes.map Node.x) ∧
    (∀ x : ℚ, x ∈ (generateMesh input).nodes.map Node.x ↔
      x ∈ collectPoints input ∧ 0 ≤ x ∧ x ≤ input.length) := by
  rw [generateMesh_nodes, meshNodes_map_x]
  exact ⟨meshCoords_sorted_lt input, fun x => mem_meshCoords⟩

/-- C3 (counterexample): two collected support coordinates `0` and `5·10⁻⁵`
lie within the claimed merge tolerance `1e-4` of each other, yet the builder
emits them as two distinct nodes (closer than `1e-4`), refuting the claimed
`ε`-merging. -/
theorem C3_counterexample_close_nodes :
    (generateMesh c3Input).nodes.map Node.x = [0, 1 / 20000, 10] ∧
    qabs (0 - 1 / 20000) < epsMerge :=
  ⟨by with_unfolding_all rfl, by
    have h : qabs (0 - 1 / 20000) = 1 / 20000 := by with_unfolding_all rfl
    rw [h]
    norm_num [epsMerge]⟩

/-! ## Claim C4: no ConflictingSupports detection -/

/-- C4 (amended): the analysis never fails on colliding supports — there is
no `ConflictingSupports` check.  Every mesh node simply takes the support
type of the first support entry within `1e-4` of its coordinate (`Free` when
none exists); supports colliding with an earlier entry are silently ignored,
and `analyze` either succeeds or fails only with the stiffness-guard or
instability errors. -/
theorem C4_no_conflicting_supports_check :
    (∀ (input : BeamInput) (node : Node), node ∈ (generateMesh input).nodes →
      node.support = supportAt input.supports node.x) ∧
    (∀ input : BeamInput,
      analyze input = Except.error BeamError.invalidStiffness ∨
      analyze input = Except.error BeamError.unstableStructure ∨
      (analyze input).isOk = true) := by
  constructor
  · intro input node hmem
    rw [generateMesh_nodes, meshNodes_eq_enum_map, List.mem_map] at hmem
    obtain ⟨p, _, rfl⟩ := hmem
    rfl
  · intro input
    rcases h : analyze input with e | res
    · cases e
      · exact Or.inl rfl
      · exact Or.inr (Or.inl rfl)
    · exact Or.inr (Or.inr rfl)

/-- C4 (witness): the node emitted at `5·10⁻⁵` in `c4Input` (which has a
`Roller` support there, colliding with the `Fixed` support at `0`) takes the
`Fixed` type of the first matching support. -/
theorem C4_no_conflicting_supports_check_witness :
    (⟨1, 1 / 20000, SupportType.Fixed⟩ : Node) ∈ (generateMesh c4Input).nodes ∧
    (⟨1, 1 / 20000, SupportType.Fixed⟩ : Node).support =
      supportAt c4Input.supports (⟨1, 1 / 20000, SupportType.Fixed⟩ : Node).x :=
  have hnodes : (generateMesh c4Input).nodes =
      [⟨0, 0, SupportType.Fixed⟩, ⟨1, 1 / 20000, SupportType.Fixed⟩,
       ⟨2, 10, SupportType.Free⟩] := by with_unfolding_all rfl
  have hmem : (⟨1, 1 / 20000, SupportType.Fixed⟩ : Node) ∈ (generateMesh c4Input).nodes := by
    rw [hnodes]
    exact List.mem_cons_of_mem _ (List.mem_cons_self _ _)
  ⟨hmem, C4_no_conflicting_supports_check.1 c4Input _ hmem⟩

/-- C4 (counterexample): `c4Input` contains two distinct supports within
`1e-4` of each other, yet `analyze` succeeds — it does not fail with
`ConflictingSupports` (no such failure exists in the code). -/
theorem C4_counterexample_conflict_accepted :
    c4Input.supports = [⟨0, SupportType.Fixed⟩, ⟨1 / 20000, SupportType.Roller⟩] ∧
    (⟨0, SupportType.Fixed⟩ : Support) ≠ ⟨1 / 20000, SupportType.Roller⟩ ∧
    qabs ((0 : ℚ) - 1 / 20000) < epsMerge ∧
    (analyze c4Input).isOk = true :=
  ⟨rfl, fun h => SupportType.noConfusion (congrArg Support.type h), by
    have h : qabs ((0 : ℚ) - 1 / 20000) = 1 / 20000 := by with_unfolding_all rfl
    rw [h]
    norm_num [epsMerge], by with_unfolding_all rfl⟩

/-! ## Claim C5: out-of-domain features -/

/-- C5 (counterexample): `c5Input` has a point load at `x = 15`, outside the
domain `[0, 10]`, yet `analyze` does not abort: it silently drops the load
and returns a successful all-zero result. -/
theorem C5_counterexample_silent_drop :
    c5Input.length = 10 ∧
    c5Input.loads.map (fun l => l.x) = [some 15] ∧
    analyze c5Input = Except.ok
      { displacements := [(0, ⟨0, 0⟩), (1, ⟨0, 0⟩)], reactions := [(0, ⟨0, 0⟩)] } :=
  ⟨rfl, rfl, by with_unfolding_all rfl⟩

/-! ## Claim C10: small-reaction cutoff in the diagram calculator -/

theorem qabs_neg (q : ℚ) : qabs (-q) = qabs q := by
  rw [qabs_eq_abs, qabs_eq_abs, abs_neg]

theorem reactionContribs_fold_big (sortedNodes reactions) :
    ∀ (l : List Node) (acc : List PtContrib × List PtContrib),
      (∀ c ∈ acc.1, cutoffSmall < qabs c.mag) →
      (∀ c ∈ acc.2, cutoffSmall < qabs c.mag) →
      (∀ c ∈ (l.foldl (reactionStep sortedNodes reactions) acc).1,
          cutoffSmall < qabs c.mag) ∧
      (∀ c ∈ (l.foldl (reactionStep sortedNodes reactions) acc).2,
          cutoffSmall < qabs c.mag) := by
  intro l
  induction l with
  | nil => exact fun acc h1 h2 => ⟨h1, h2⟩
  | cons node rest ih =>
    intro acc h1 h2
    rw [List.foldl_cons]
    apply ih
    · intro c hc
      unfold reactionStep at hc
      rcases hr : resolvedReaction sortedNodes reactions node with _ | r
      · rw [hr] at hc
        exact h1 c hc
      · rw [hr] at hc
        simp only [List.mem_append] at hc
        rcases hc with hc | hc
        · exact h1 c hc
        · split at hc
          · rw [List.mem_singleton] at hc
            subst hc
            assumption
          · simp at hc
    · intro c hc
      unfold reactionStep at hc
      rcases hr : resolvedReaction sortedNodes reactions node with _ | r
      · rw [hr] at hc
        exact h2 c hc
      · rw [hr] at hc
        simp only [List.mem_append] at hc
        rcases hc with hc | hc
        · exact h2 c hc
        · split at hc
          · rw [List.mem_singleton] at hc
            subst hc
            rw [qabs_neg]
            assumption
          · simp at hc

theorem loadContribs_fold_tag :
    ∀ (l : List Load) (acc : List PtContrib × List PtContrib × List DistContrib),
      (∀ c ∈ acc.1, c.isReaction = false) →
      (∀ c ∈ acc.2.1, c.isReaction = false) →
      (∀ c ∈ (l.foldl loadStep acc).1, c.isReaction = false) ∧
      (∀ c ∈ (l.foldl loadStep acc).2.1, c.isReaction = false) := by
  intro l
  induction l with
  | nil => exact fun acc h1 h2 => ⟨h1, h2⟩
  | cons load rest ih =>
    intro acc h1 h2
    rw [List.foldl_cons]
    apply ih
    · intro c hc
      rcases load with ⟨i0, mag, x, cat⟩ | ⟨i0, mag, x, cat⟩ | ⟨i0, mag, a, b, cat⟩
      · rcases List.mem_append.mp hc with hc | hc
        · exact h1 c hc
        · rw [List.mem_singleton] at hc
          subst hc
          rfl
      · exact h1 c hc
      · dsimp only [loadStep] at hc
        split at hc
        · exact h1 c hc
        · exact h1 c hc
    · intro c hc
      rcases load with ⟨i0, mag, x, cat⟩ | ⟨i0, mag, x, cat⟩ | ⟨i0, mag, a, b, cat⟩
      · exact h2 c hc
      · rcases List.mem_append.mp hc with hc | hc
        · exact h2 c hc
        · rw [List.mem_singleton] at hc
          subst hc
          rfl
      · dsimp only [loadStep] at hc
        split at hc
        · exact h2 c hc
        · exact h2 c hc

/-- C10: a support reaction component enters the diagram's point-contribution
arrays only when its absolute value exceeds `1e-5`: every reaction-tagged
entry of the `pointForces` and `pointMoments` arrays (from which all shear
and bending-moment samples are computed) has `|mag| > 1e-5`; reactions with
`|fy| ≤ 1e-5` (resp. `|m| ≤ 1e-5`) contribute no point force (resp. moment). -/
theorem C10_small_reaction_cutoff (nodes : List Node) (loads : List Load)
    (reactions : List (ℕ × NodeReaction)) (viewMode : DiagramViewMode) (c : PtContrib) :
    (c ∈ diagramPointForces nodes loads reactions viewMode → c.isReaction = true →
      cutoffSmall < qabs c.mag) ∧
    (c ∈ diagramPointMoments nodes loads reactions viewMode → c.isReaction = true →
      cutoffSmall < qabs c.mag) := by
  constructor
  · intro hc htag
    rcases List.mem_append.mp hc with hc | hc
    · exact (reactionContribs_fold_big (sortNodesByX nodes) reactions _ ([], [])
        (by simp) (by simp)).1 c hc
    · have := (loadContribs_fold_tag _ ([], [], []) (by simp) (by simp)).1 c hc
      rw [htag] at this
      cases this
  · intro hc htag
    rcases List.mem_append.mp hc with hc | hc
    · exact (reactionContribs_fold_big (sortNodesByX nodes) reactions _ ([], [])
        (by simp) (by simp)).2 c hc
    · have := (loadContribs_fold_tag _ ([], [], []) (by simp) (by simp)).2 c hc
      rw [htag] at this
      cases this

/-- C10 (witness): for `w9Nodes` with reactions `w10Reactions` — whose first
entry has `|fy| = 5·10⁻⁶ ≤ 1e-5` and whose second has `|m| = 10⁻⁶ ≤ 1e-5` —
the built arrays contain exactly one point force and one point moment, both
exceeding the cutoff. -/
theorem C10_small_reaction_cutoff_witness :
    diagramPointForces w9Nodes [] w10Reactions DiagramViewMode.dead = [⟨10, 7, true⟩] ∧
    diagramPointMoments w9Nodes [] w10Reactions DiagramViewMode.dead = [⟨0, -3, true⟩] ∧
    cutoffSmall < qabs (⟨10, 7, true⟩ : PtContrib).mag := by
  have hpf : diagramPointForces w9Nodes [] w10Reactions DiagramViewMode.dead =
      [⟨10, 7, true⟩] := by with_unfolding_all rfl
  refine ⟨hpf, by with_unfolding_all rfl, ?_⟩
  exact (C10_small_reaction_cutoff w9Nodes [] w10Reactions DiagramViewMode.dead _).1
    (by rw [hpf]; exact List.mem_singleton_self _) rfl


/-! ## Claim C8: right-edge rule for diagrams -/

theorem sum_map_ite {α : Type} (l : List α) (p : α → Prop) [DecidablePred p] (f : α → ℚ) :
    (l.map (fun a => if p a then f a else 0)).sum =
      ((l.filter (fun a => decide (p a))).map f).sum := by
  induction l with
  | nil => rfl
  | cons a rest ih =>
    by_cases h : p a <;> simp [h, ih]

theorem includePt_iff (length x fx : ℚ) :
    includePt length x fx ↔ (fx ≤ x + epsFind ∧ fx < length - epsFind) := by
  unfold includePt
  rw [ge_iff_le, not_le]

theorem shearAt_filter (pfs : List PtContrib) (ds : List DistContrib) (length x : ℚ) :
    shearAt pfs ds length x =
      ((pfs.filter (fun f => decide (f.x ≤ x + epsFind ∧ f.x < length - epsFind))).map
        (fun f => f.mag)).sum + (ds.map (fun d => distShearTerm d x)).sum := by
  have hfil : pfs.filter (fun a => decide (includePt length x a.x)) =
      pfs.filter (fun f => decide (f.x ≤ x + epsFind ∧ f.x < length - epsFind)) :=
    List.filter_congr (fun f _ => decide_eq_decide.mpr (includePt_iff length x f.x))
  unfold shearAt
  rw [sum_map_ite pfs (fun f => includePt length x f.x) (fun f => f.mag), hfil]

theorem momentAt_filter (pfs pms : List PtContrib) (ds : List DistContrib) (length x : ℚ) :
    momentAt pfs pms ds length x =
      ((pfs.filter (fun f => decide (f.x ≤ x + epsFind ∧ f.x < length - epsFind))).map
        (fun f => f.mag * (x - f.x))).sum +
      ((pms.filter (fun f => decide (f.x ≤ x + epsFind ∧ f.x < length - epsFind))).map
        (fun f => f.mag)).sum +
      (ds.map (fun d => distMomentTerm d x)).sum := by
  have hfil1 : pfs.filter (fun a => decide (includePt length x a.x)) =
      pfs.filter (fun f => decide (f.x ≤ x + epsFind ∧ f.x < length - epsFind)) :=
    List.filter_congr (fun f _ => decide_eq_decide.mpr (includePt_iff length x f.x))
  have hfil2 : pms.filter (fun a => decide (includePt length x a.x)) =
      pms.filter (fun f => decide (f.x ≤ x + epsFind ∧ f.x < length - epsFind)) :=
    List.filter_congr (fun f _ => decide_eq_decide.mpr (includePt_iff length x f.x))
  unfold momentAt
  rw [sum_map_ite pfs (fun f => includePt length x f.x) (fun f => f.mag * (x - f.x)),
    sum_map_ite pms (fun f => includePt length x f.x) (fun f => f.mag), hfil1, hfil2]

/-- C8: at every sample `x_i = i·Ltot/resolution`, the stored shear and
bending-moment values are the `1e-4`-snapped sums over exactly those point
contributions `f` with `f.x ≤ x + ε` and `f.x < Ltot − ε` (`ε = 1e-3`), plus
the distributed terms; every point contribution at `f.x ≥ Ltot − ε` is
excluded from every sample. -/
theorem C8_right_edge_rule (length : ℚ) (nodes : List Node) (loads : List Load)
    (reactions : List (ℕ × NodeReaction)) (displacements : List (ℕ × NodeDisp))
    (resolution : ℕ) (viewMode : DiagramViewMode) (i : ℕ) (hi : i < resolution + 1) :
    (calculateDiagrams length nodes loads reactions displacements resolution
        viewMode).shearForce.get? i =
      some ⟨(i : ℚ) * (length / (resolution : ℚ)),
        snapSmall ((((diagramPointForces nodes loads reactions viewMode).filter
            (fun f => decide (f.x ≤ (i : ℚ) * (length / (resolution : ℚ)) + epsFind ∧
              f.x < length - epsFind))).map (fun f => f.mag)).sum +
          ((diagramDistLoads loads viewMode).map
            (fun d => distShearTerm d ((i : ℚ) * (length / (resolution : ℚ))))).sum)⟩ ∧
    (calculateDiagrams length nodes loads reactions displacements resolution
        viewMode).bendingMoment.get? i =
      some ⟨(i : ℚ) * (length / (resolution : ℚ)),
        snapSmall ((((diagramPointForces nodes loads reactions viewMode).filter
            (fun f => decide (f.x ≤ (i : ℚ) * (length / (resolution : ℚ)) + epsFind ∧
              f.x < length - epsFind))).map
            (fun f => f.mag * ((i : ℚ) * (length / (resolution : ℚ)) - f.x))).sum +
          (((diagramPointMoments nodes loads reactions viewMode).filter
            (fun f => decide (f.x ≤ (i : ℚ) * (length / (resolution : ℚ)) + epsFind ∧
              f.x < length - epsFind))).map (fun f => f.mag)).sum +
          ((diagramDistLoads loads viewMode).map
            (fun d => distMomentTerm d ((i : ℚ) * (length / (resolution : ℚ))))).sum)⟩ ∧
    (∀ f : PtContrib, length - epsFind ≤ f.x →
      f ∉ (diagramPointForces nodes loads reactions viewMode).filter
        (fun f => decide (f.x ≤ (i : ℚ) * (length / (resolution : ℚ)) + epsFind ∧
          f.x < length - epsFind))) := by
  refine ⟨?_, ?_, ?_⟩
  · unfold calculateDiagrams
    dsimp only
    rw [List.get?_map, List.get?_range hi, Option.map_some']
    rw [shearAt_filter]
  · unfold calculateDiagrams
    dsimp only
    rw [List.get?_map, List.get?_range hi, Option.map_some']
    rw [momentAt_filter]
  · intro f hedge hmem
    rw [List.mem_filter] at hmem
    have := of_decide_eq_true hmem.2
    exact absurd this.2 (not_lt.mpr hedge)

/-- C8 (witness): at the final sample `x = 10` of a 2-sample diagram over
`w9Nodes` with reactions `w10Reactions`, the right-edge reaction at `x = 10`
is excluded and the sample equations hold. -/
theorem C8_right_edge_rule_witness :
    (2 < 2 + 1) ∧
    ((calculateDiagrams 10 w9Nodes [] w10Reactions [] 2
        DiagramViewMode.dead).shearForce.get? 2 =
      some ⟨(2 : ℚ) * ((10 : ℚ) / (2 : ℚ)),
        snapSmall ((((diagramPointForces w9Nodes [] w10Reactions DiagramViewMode.dead).filter
            (fun f => decide (f.x ≤ (2 : ℚ) * ((10 : ℚ) / (2 : ℚ)) + epsFind ∧
              f.x < 10 - epsFind))).map (fun f => f.mag)).sum +
          ((diagramDistLoads [] DiagramViewMode.dead).map
            (fun d => distShearTerm d ((2 : ℚ) * ((10 : ℚ) / (2 : ℚ))))).sum)⟩) :=
  ⟨by decide,
   (C8_right_edge_rule 10 w9Nodes [] w10Reactions [] 2 DiagramViewMode.dead 2
     (by decide)).1⟩

/-! ## Claim C9: Hermite consistency of the deflection curve -/

theorem deformAt_node (displacements : List (ℕ × NodeDisp)) :
    ∀ (nodes : List Node)
      (_ : List.Chain' (fun a b : Node => a.x + epsFind < b.x) nodes)
      (_ : 2 ≤ nodes.length) (j : ℕ) (nj : Node) (_ : nodes.get? j = some nj),
      deformAt nodes displacements nj.x = dispY displacements nj.id := by
  intro nodes
  induction nodes with
  | nil => intro _ h2; cases h2
  | cons n0 rest ih =>
    intro hchain h2 j nj hget
    match rest, h2 with
    | n1 :: rest2, _ =>
      have hR01 : n0.x + epsFind < n1.x := hchain.rel_head
      have hchain1 : List.Chain' (fun a b : Node => a.x + epsFind < b.x) (n1 :: rest2) :=
        hchain.tail
      have heps : (0 : ℚ) < epsFind := by norm_num [epsFind]
      have hgeom : epsGeom < epsFind := by norm_num [epsGeom, epsFind]
      have h01 : n0.x < n1.x := by linarith
      match j, hget with
      | 0, hget =>
        have hnj : nj = n0 := by
          rw [List.get?_cons_zero] at hget
          exact (Option.some.injEq _ _ ▸ hget.symm : _)
        subst hnj
        unfold deformAt
        rw [show consecPairs (nj :: n1 :: rest2) = (nj, n1) :: consecPairs (n1 :: rest2)
          from rfl]
        unfold findSeg
        rw [if_pos ⟨by linarith, by linarith⟩]
        dsimp only
        rw [if_neg (not_lt.mpr (by linarith))]
        unfold hermiteVal
        dsimp only
        rw [show nj.x - nj.x = 0 from by ring, zero_div]
        ring
      | 1, hget =>
        have hnj : nj = n1 := by
          rw [List.get?_cons_succ, List.get?_cons_zero] at hget
          exact (Option.some.injEq _ _ ▸ hget.symm : _)
        subst hnj
        unfold deformAt
        rw [show consecPairs (n0 :: nj :: rest2) = (n0, nj) :: consecPairs (nj :: rest2)
          from rfl]
        unfold findSeg
        rw [if_pos ⟨by linarith, by linarith⟩]
        dsimp only
        rw [if_neg (not_lt.mpr (by linarith))]
        unfold hermiteVal
        dsimp only
        have hL : nj.x - n0.x ≠ 0 := ne_of_gt (by linarith)
        rw [div_self hL]
        ring
      | (k + 2), hget =>
        rw [List.get?_cons_succ] at hget
        have htrans : Transitive (fun a b : Node => a.x + epsFind < b.x) := by
          intro a b c hab hbc
          linarith
        haveI : IsTrans Node (fun a b : Node => a.x + epsFind < b.x) := ⟨htrans⟩
        have hpair := List.chain'_iff_pairwise.mp hchain1
        have hget2 : rest2.get? k = some nj := by
          rw [List.get?_cons_succ] at hget
          exact hget
        have hmem2 : nj ∈ rest2 := List.get?_mem hget2
        have hj1 : n1.x + epsFind < nj.x := (List.pairwise_cons.mp hpair).1 nj hmem2
        have hlen2 : 2 ≤ (n1 :: rest2).length := by
          have hlt := (List.get?_eq_some.mp hget2).1
          simp only [List.length_cons]
          omega
        have hrec := ih hchain1 hlen2 (k + 1) nj hget
        unfold deformAt at hrec ⊢
        rw [show consecPairs (n0 :: n1 :: rest2) = (n0, n1) :: consecPairs (n1 :: rest2)
          from rfl]
        unfold findSeg
        rw [if_neg (fun hcon => absurd hcon.2 (not_le.mpr (by linarith)))]
        exact hrec

/-- C9 (amended): whenever a diagram sample coincides with a sorted node
coordinate and consecutive sorted nodes are separated by more than the search
tolerance `1e-3`, the deformation sample equals that node's stored vertical
displacement exactly (hence within `1e-12`). -/
theorem C9_hermite_interpolates (length : ℚ) (nodes : List Node) (loads : List Load)
    (reactions : List (ℕ × NodeReaction)) (displacements : List (ℕ × NodeDisp))
    (resolution : ℕ) (viewMode : DiagramViewMode) (i j : ℕ) (nj : Node)
    (hi : i < resolution + 1)
    (hchain : List.Chain' (fun a b : Node => a.x + epsFind < b.x) (sortNodesByX nodes))
    (h2 : 2 ≤ (sortNodesByX nodes).length)
    (hget : (sortNodesByX nodes).get? j = some nj)
    (hx : (i : ℚ) * (length / (resolution : ℚ)) = nj.x) :
    (calculateDiagrams length nodes loads reactions displacements resolution
        viewMode).deformation.get? i = some ⟨nj.x, dispY displacements nj.id⟩ := by
  unfold calculateDiagrams
  dsimp only
  rw [List.get?_map, List.get?_range hi, Option.map_some']
  rw [hx]
  rw [deformAt_node displacements (sortNodesByX nodes) hchain h2 j nj hget]

/-- C9 (witness): a 2-sample diagram over the well-separated `w9Nodes` whose
middle sample lands exactly on the node at `x = 5`; the deformation sample
equals that node's displacement `7`. -/
theorem C9_hermite_interpolates_witness :
    (1 < 2 + 1) ∧
    List.Chain' (fun a b : Node => a.x + epsFind < b.x) (sortNodesByX w9Nodes) ∧
    2 ≤ (sortNodesByX w9Nodes).length ∧
    (sortNodesByX w9Nodes).get? 1 = some ⟨1, 5, SupportType.Free⟩ ∧
    ((1 : ℚ) * ((10 : ℚ) / (2 : ℚ)) = (5 : ℚ)) ∧
    (calculateDiagrams 10 w9Nodes [] [] w9Disp 2 DiagramViewMode.dead).deformation.get? 1 =
      some ⟨(5 : ℚ), dispY w9Disp 1⟩ := by
  have hs : sortNodesByX w9Nodes = w9Nodes := by with_unfolding_all rfl
  have hchain : List.Chain' (fun a b : Node => a.x + epsFind < b.x) (sortNodesByX w9Nodes) := by
    rw [hs]
    refine List.Chain'.cons ?_ (List.Chain'.cons ?_ (List.chain'_singleton _))
    · show (0 : ℚ) + epsFind < 5
      norm_num [epsFind]
    · show (5 : ℚ) + epsFind < 10
      norm_num [epsFind]
  have hget : (sortNodesByX w9Nodes).get? 1 = some ⟨1, 5, SupportType.Free⟩ := by
    with_unfolding_all rfl
  have hlen : 2 ≤ (sortNodesByX w9Nodes).length := by
    rw [hs]
    decide
  have hx5 : (1 : ℚ) * ((10 : ℚ) / (2 : ℚ)) = (5 : ℚ) := by with_unfolding_all rfl
  refine ⟨by decide, hchain, hlen, hget, hx5, ?_⟩
  have hx5n : (1 : ℚ) * ((10 : ℚ) / (2 : ℚ)) =
      (⟨1, 5, SupportType.Free⟩ : Node).x := hx5
  exact C9_hermite_interpolates 10 w9Nodes [] [] w9Disp 2 DiagramViewMode.dead 1 1
    ⟨1, 5, SupportType.Free⟩ (by decide) hchain hlen hget hx5n

/-- C9 (counterexample): `c9Nodes` has two nodes only `5·10⁻⁴ < 1e-3` apart;
the middle diagram sample coincides exactly with the last node's coordinate
`5.0005`, but the interval search (tolerance `1e-3`) picks the earlier
interval `[0, 5]` and extrapolates: the sample differs from that node's
stored displacement `2` by about `1`, far beyond `1e-12`. -/
theorem C9_counterexample_close_nodes :
    (sortNodesByX c9Nodes).map Node.x = [0, 5, 10001 / 2000] ∧
    ((1 : ℚ) * ((10001 / 1000 : ℚ) / (2 : ℚ)) = (10001 / 2000 : ℚ)) ∧
    dispY c9Disp 2 = 2 ∧
    (calculateDiagrams (10001 / 1000) c9Nodes [] [] c9Disp 2
        DiagramViewMode.dead).deformation.get? 1 =
      some ⟨10001 / 2000, 499999984999 / 500000000000⟩ ∧
    (1 : ℚ) / 1000000000000 < qabs (499999984999 / 500000000000 - 2) :=
  ⟨by with_unfolding_all rfl, by with_unfolding_all rfl,
   by with_unfolding_all rfl, by with_unfolding_all rfl, by
    have h : qabs (499999984999 / 500000000000 - 2) = 500000015001 / 500000000000 := by
      with_unfolding_all rfl
    rw [h]
    norm_num⟩



/-! ## Solver infrastructure -/

theorem detL_eq_det : ∀ (n : ℕ) (M : Matrix (Fin n) (Fin n) ℚ), detL n M = M.det
  | 0, M => by
    unfold detL
    rw [Matrix.det_fin_zero]
  | n + 1, M => by
    unfold detL
    rw [Matrix.det_succ_row_zero]
    exact Finset.sum_congr rfl fun j _ => by rw [detL_eq_det]

theorem cramerSolve_mulVec (n : ℕ) (A : Matrix (Fin n) (Fin n) ℚ) (b : Fin n → ℚ)
    (h : detL n A ≠ 0) : A.mulVec (cramerSolve n A b) = b := by
  have hd : A.det ≠ 0 := by rwa [detL_eq_det] at h
  have hc : cramerSolve n A b = A.det⁻¹ • A.cramer b := by
    funext i
    unfold cramerSolve
    rw [detL_eq_det, detL_eq_det]
    rw [Pi.smul_apply, smul_eq_mul, Matrix.cramer_apply, div_eq_inv_mul]
  rw [hc, Matrix.mulVec_smul, Matrix.mulVec_cramer, smul_smul,
    inv_mul_cancel₀ hd, one_smul]

theorem freeDofs_aux (k : ℕ) (nodes : List Node) :
    List.Sorted (· < ·) ((List.enumFrom k nodes).flatMap (fun p =>
      (if p.2.isRestrainedY then [] else [2 * p.1]) ++
        (if p.2.isRestrainedRotation then [] else [2 * p.1 + 1]))) ∧
    (∀ d ∈ (List.enumFrom k nodes).flatMap (fun p =>
      (if p.2.isRestrainedY then [] else [2 * p.1]) ++
        (if p.2.isRestrainedRotation then [] else [2 * p.1 + 1])),
      2 * k ≤ d ∧ d < 2 * (k + nodes.length)) := by
  induction nodes generalizing k with
  | nil => exact ⟨List.sorted_nil, fun d hd => absurd hd (List.not_mem_nil d)⟩
  | cons nd rest ih =>
    obtain ⟨ihs, ihb⟩ := ih (k + 1)
    rw [List.enumFrom_cons, List.flatMap_cons]
    dsimp only
    have hhead : ∀ d ∈ ((if nd.isRestrainedY then [] else [2 * k]) ++
        (if nd.isRestrainedRotation then [] else [2 * k + 1])),
        2 * k ≤ d ∧ d ≤ 2 * k + 1 := by
      intro d hd
      rcases List.mem_append.mp hd with hd | hd <;> split at hd <;>
        simp only [List.not_mem_nil, List.mem_singleton] at hd <;> omega
    have hheads : List.Sorted (· < ·) ((if nd.isRestrainedY then [] else [2 * k]) ++
        (if nd.isRestrainedRotation then [] else [2 * k + 1])) := by
      split <;> split <;>
        simp [List.Sorted, List.sorted_cons]
    constructor
    · rw [List.Sorted, List.pairwise_append]
      refine ⟨hheads, ihs, ?_⟩
      intro a ha b hb
      have h1 := hhead a ha
      have h2 := (ihb b hb).1
      omega
    · intro d hd
      rcases List.mem_append.mp hd with hd | hd
      · have := hhead d hd
        have : (0 : ℕ) < (nd :: rest).length := by simp
        constructor
        · exact (hhead d hd).1
        · have := (hhead d hd).2
          simp only [List.length_cons]
          omega
      · have := ihb d hd
        constructor
        · omega
        · simp only [List.length_cons]
          omega

theorem freeDofs_sorted (nodes : List Node) : List.Sorted (· < ·) (freeDofs nodes) :=
  (freeDofs_aux 0 nodes).1

theorem freeDofs_nodup (nodes : List Node) : (freeDofs nodes).Nodup :=
  (freeDofs_sorted nodes).imp ne_of_lt

theorem freeDofs_lt (nodes : List Node) : ∀ d ∈ freeDofs nodes, d < 2 * nodes.length := by
  intro d hd
  have := ((freeDofs_aux 0 nodes).2 d hd).2
  omega

theorem freeDofs_mem_iff {nodes : List Node} {d : ℕ} :
    d ∈ freeDofs nodes ↔ ∃ i nd, nodes.get? i = some nd ∧
      ((d = 2 * i ∧ nd.isRestrainedY = false) ∨
       (d = 2 * i + 1 ∧ nd.isRestrainedRotation = false)) := by
  unfold freeDofs
  rw [List.mem_flatMap]
  constructor
  · rintro ⟨p, hp, hd⟩
    refine ⟨p.1, p.2, ?_, ?_⟩
    · have := List.mk_mem_enumFrom_iff_le_and_getElem?_sub.mp (by
        rw [show (p.1, p.2) = p from rfl]
        exact hp)
      simpa using this.2
    · rcases List.mem_append.mp hd with hd | hd <;> split at hd <;>
        simp only [List.not_mem_nil, List.mem_singleton] at hd
      · subst hd
        rename_i hb
        exact Or.inl ⟨rfl, by simpa using hb⟩
      · subst hd
        rename_i hb
        exact Or.inr ⟨rfl, by simpa using hb⟩
  · rintro ⟨i, nd, hget, hcase⟩
    refine ⟨(i, nd), ?_, ?_⟩
    · apply List.mk_mem_enumFrom_iff_le_and_getElem?_sub.mpr
      simpa using hget
    · rcases hcase with ⟨rfl, hb⟩ | ⟨rfl, hb⟩
      · apply List.mem_append.mpr
        left
        rw [hb]
        exact List.mem_singleton_self _
      · apply List.mem_append.mpr
        right
        rw [hb]
        exact List.mem_singleton_self _

theorem listRangeSum (N : ℕ) (g : ℕ → ℚ) :
    ((List.range N).map g).sum = ∑ c in Finset.range N, g c := by
  induction N with
  | zero => rfl
  | succ n ih =>
    rw [List.range_succ, List.map_append, List.sum_append, Finset.sum_range_succ, ih]
    simp

theorem sum_masked (free : List ℕ) (hnd : free.Nodup) (N : ℕ)
    (hlt : ∀ d ∈ free, d < N) (g : ℕ → ℚ) :
    (∑ c in Finset.range N, if c ∈ free then g c else 0) = (free.map g).sum := by
  have h1 : (∑ c in Finset.range N, if c ∈ free then g c else 0) =
      ∑ c in Finset.range N, if c ∈ free.toFinset then g c else 0 := by
    refine Finset.sum_congr rfl fun c _ => ?_
    congr 1
    rw [eq_iff_iff]
    exact (List.mem_toFinset).symm
  rw [h1, Finset.sum_ite_mem]
  have h2 : Finset.range N ∩ free.toFinset = free.toFinset := by
    apply Finset.inter_eq_right.mpr
    intro c hc
    rw [List.mem_toFinset] at hc
    exact Finset.mem_range.mpr (hlt c hc)
  rw [h2]
  exact List.sum_toFinset g hnd

theorem sum_fin_free (free : List ℕ) (g : ℕ → ℚ) :
    (free.map g).sum = ∑ k : Fin free.length, g (free.get k) := by
  rw [← Fin.sum_univ_get']
  exact Finset.sum_congr rfl fun k _ => by rw [List.get_eq_getElem]

theorem indexOf_get_self {l : List ℕ} (h : l.Nodup) (k : Fin l.length) :
    l.indexOf (l.get k) = (k : ℕ) := by
  have hmem : l.get k ∈ l := l.get_mem _ _
  have hlt : l.indexOf (l.get k) < l.length := List.indexOf_lt_length.mpr hmem
  have h1 : l.get ⟨l.indexOf (l.get k), hlt⟩ = l.get k := List.indexOf_get hlt
  have h2 := List.nodup_iff_injective_get.mp h h1
  exact congrArg Fin.val h2


/-! ## Claim C7: reaction export rule -/

theorem solve_ok_inv {nodes : List Node} {elements : List Element} {loads : List Load}
    {res : AnalysisResults} (hok : solve nodes elements loads = Except.ok res) :
    ∃ u : ℕ → ℚ, res = exportResults nodes u (residual nodes elements loads u) := by
  simp only [solve] at hok
  split at hok
  · cases hok
  · split at hok
    · refine ⟨fun _ => 0, ?_⟩
      injection hok with h
      exact h.symm
    · split at hok
      · cases hok
      · refine ⟨globalU nodes (cramerSolve (freeDofs nodes).length (Kff nodes elements)
          (Ff nodes loads)), ?_⟩
        injection hok with h
        exact h.symm

theorem find_export_disp (u : ℕ → ℚ) :
    ∀ (nodes : List Node) (k : ℕ), (nodes.map Node.id).Nodup →
      ∀ (i : ℕ) (nd : Node), nodes.get? i = some nd →
      ((List.enumFrom k nodes).map
          (fun p => (p.2.id, NodeDisp.mk (u (2 * p.1)) (u (2 * p.1 + 1))))).find?
          (fun p => decide (p.1 = nd.id)) =
        some (nd.id, NodeDisp.mk (u (2 * (k + i))) (u (2 * (k + i) + 1))) := by
  intro nodes
  induction nodes with
  | nil =>
    intro k _ i nd h
    cases h
  | cons n0 rest ih =>
    intro k hids i nd hget
    rw [List.enumFrom_cons, List.map_cons]
    match i, hget with
    | 0, hget =>
      rw [List.get?_cons_zero] at hget
      have hnd : n0 = nd := by injection hget
      subst hnd
      rw [List.find?_cons_of_pos _ (by simp)]
      rfl
    | (j + 1), hget =>
      rw [List.get?_cons_succ] at hget
      have hne : n0.id ≠ nd.id := by
        intro he
        have h1 : nd ∈ rest := List.get?_mem hget
        have h2 : nd.id ∈ rest.map Node.id := List.mem_map_of_mem _ h1
        rw [List.map_cons, List.nodup_cons] at hids
        exact hids.1 (he ▸ h2)
      rw [List.find?_cons_of_neg _ (by simp [hne])]
      have htail : (rest.map Node.id).Nodup := by
        rw [List.map_cons, List.nodup_cons] at hids
        exact hids.2
      have hrec := ih (k + 1) htail j nd hget
      have harg : k + 1 + j = k + (j + 1) := by omega
      rw [harg] at hrec
      exact hrec

theorem dispVecOf_export (nodes : List Node) (u R : ℕ → ℚ)
    (hids : (nodes.map Node.id).Nodup) (d : ℕ) (hd : d < 2 * nodes.length) :
    dispVecOf nodes (exportResults nodes u R) d = u d := by
  have hi : d / 2 < nodes.length := by omega
  have hget : nodes.get? (d / 2) = some (nodes.get ⟨d / 2, hi⟩) := List.get?_eq_get hi
  have hfind := find_export_disp u nodes 0 hids (d / 2) _ hget
  unfold dispVecOf
  rw [hget]
  dsimp only
  have hdisp : (exportResults nodes u R).displacements =
      (List.enumFrom 0 nodes).map
        (fun p => (p.2.id, NodeDisp.mk (u (2 * p.1)) (u (2 * p.1 + 1)))) := rfl
  by_cases hpar : d % 2 = 0
  · rw [if_pos hpar]
    unfold dispY
    rw [hdisp, hfind]
    simp only [Option.map_some', Option.getD_some]
    show u (2 * (0 + d / 2)) = u d
    congr 1
    omega
  · rw [if_neg hpar]
    unfold dispRot
    rw [hdisp, hfind]
    simp only [Option.map_some', Option.getD_some]
    show u (2 * (0 + d / 2) + 1) = u d
    congr 1
    omega

theorem residual_congr (nodes : List Node) (elements : List Element) (loads : List Load)
    {u1 u2 : ℕ → ℚ} (h : ∀ d < 2 * nodes.length, u1 d = u2 d) (r : ℕ) :
    residual nodes elements loads u1 r = residual nodes elements loads u2 r := by
  unfold residual
  congr 1
  have hmap : List.map (fun c => assembleK nodes elements r c * u1 c)
      (List.range (2 * nodes.length)) =
      List.map (fun c => assembleK nodes elements r c * u2 c)
      (List.range (2 * nodes.length)) := by
    apply List.map_congr_left
    intro c hc
    rw [h c (List.mem_range.mp hc)]
  rw [hmap]

theorem mem_enum_of_get? {nodes : List Node} {i : ℕ} {nd : Node}
    (hget : nodes.get? i = some nd) : (i, nd) ∈ nodes.enum := by
  apply List.mk_mem_enumFrom_iff_le_and_getElem?_sub.mpr
  simpa using hget

/-- C7: after a successful `solve`, with `R = K·u − F` the residual of the
exported displacement vector, the reactions map contains an entry exactly for
each node with any restraint, whose `fy` is `R[2i]` if the vertical DOF is
restrained and exactly `0` otherwise, and whose `m` is `R[2i+1]` if the
rotational DOF is restrained and exactly `0` otherwise. -/
theorem C7_reaction_export (nodes : List Node) (elements : List Element)
    (loads : List Load) (res : AnalysisResults)
    (hids : (nodes.map Node.id).Nodup)
    (hok : solve nodes elements loads = Except.ok res) :
    (∀ (i : ℕ) (nd : Node), nodes.get? i = some nd →
      (nd.isRestrainedY || nd.isRestrainedRotation) = true →
      (nd.id, NodeReaction.mk
        (if nd.isRestrainedY then
          residual nodes elements loads (dispVecOf nodes res) (2 * i) else 0)
        (if nd.isRestrainedRotation then
          residual nodes elements loads (dispVecOf nodes res) (2 * i + 1) else 0))
        ∈ res.reactions) ∧
    (∀ p ∈ res.reactions, ∃ i nd, nodes.get? i = some nd ∧
      (nd.isRestrainedY || nd.isRestrainedRotation) = true ∧
      p.1 = nd.id ∧
      p.2.fy = (if nd.isRestrainedY then
        residual nodes elements loads (dispVecOf nodes res) (2 * i) else 0) ∧
      p.2.m = (if nd.isRestrainedRotation then
        residual nodes elements loads (dispVecOf nodes res) (2 * i + 1) else 0)) := by
  obtain ⟨u, rfl⟩ := solve_ok_inv hok
  have hres : ∀ r, residual nodes elements loads
      (dispVecOf nodes (exportResults nodes u (residual nodes elements loads u))) r =
      residual nodes elements loads u r :=
    residual_congr nodes elements loads
      (fun d hd => dispVecOf_export nodes u _ hids d hd)
  constructor
  · intro i nd hget hrestr
    rw [hres (2 * i), hres (2 * i + 1)]
    show _ ∈ nodes.enum.filterMap _
    apply List.mem_filterMap.mpr
    refine ⟨(i, nd), mem_enum_of_get? hget, ?_⟩
    show (if nd.isRestrainedY || nd.isRestrainedRotation then _ else none) = _
    rw [if_pos hrestr]
  · intro p hp
    have hp2 : p ∈ nodes.enum.filterMap (fun q =>
        if q.2.isRestrainedY || q.2.isRestrainedRotation then
          some (q.2.id, NodeReaction.mk
            (if q.2.isRestrainedY then residual nodes elements loads u (2 * q.1) else 0)
            (if q.2.isRestrainedRotation then
              residual nodes elements loads u (2 * q.1 + 1) else 0))
        else none) := hp
    obtain ⟨q, hq, hf⟩ := List.mem_filterMap.mp hp2
    by_cases hr : q.2.isRestrainedY || q.2.isRestrainedRotation
    · rw [if_pos hr] at hf
      injection hf with hf
      refine ⟨q.1, q.2, ?_, hr, ?_, ?_, ?_⟩
      · have := List.mk_mem_enumFrom_iff_le_and_getElem?_sub.mp
          (by rw [show (q.1, q.2) = q from rfl]; exact hq)
        simpa using this.2
      · rw [← hf]
      · rw [← hf, hres (2 * q.1)]
      · rw [← hf, hres (2 * q.1 + 1)]
    · rw [if_neg hr] at hf
      cases hf

/-- C7 (witness): solving the two-node cantilever `w7Nodes` with no loads
yields the all-zero result, whose reactions contain exactly the entry for the
fixed node with both components `0`. -/
theorem C7_reaction_export_witness :
    (w7Nodes.map Node.id).Nodup ∧
    solve w7Nodes w7Elements [] = Except.ok w7Res ∧
    (0, NodeReaction.mk 0 0) ∈ w7Res.reactions := by
  have h1 : (w7Nodes.map Node.id).Nodup := by decide
  have h2 : solve w7Nodes w7Elements [] = Except.ok w7Res := by with_unfolding_all rfl
  refine ⟨h1, h2, ?_⟩
  have h3 := (C7_reaction_export w7Nodes w7Elements [] w7Res h1 h2).1 0
    ⟨0, 0, SupportType.Fixed⟩ rfl rfl
  have e1 : (if (⟨0, 0, SupportType.Fixed⟩ : Node).isRestrainedY then
      residual w7Nodes w7Elements [] (dispVecOf w7Nodes w7Res) (2 * 0) else 0) = 0 := by
    with_unfolding_all rfl
  have e2 : (if (⟨0, 0, SupportType.Fixed⟩ : Node).isRestrainedRotation then
      residual w7Nodes w7Elements [] (dispVecOf w7Nodes w7Res) (2 * 0 + 1) else 0) = 0 := by
    with_unfolding_all rfl
  rw [e1, e2] at h3
  exact h3


/-! ## Stiffness assembly sum lemmas -/

theorem localEntry_oob (el : Element) (a b : ℕ) (ha : 4 ≤ a) : localEntry el a b = 0 := by
  have h1 : (beam2D el.E el.I el.length).getD a [] = [] :=
    List.getD_eq_default _ _
      (by unfold beam2D; simp only [List.length_cons, List.length_nil]; omega)
  unfold localEntry
  rw [h1]
  exact List.getD_eq_default _ _ (Nat.zero_le b)

theorem localEntry_col02 (el : Element) :
    ∀ a : ℕ, localEntry el a 0 + localEntry el a 2 = 0
  | 0 => by
    unfold localEntry beam2D
    dsimp only
    simp only [List.getD_cons_zero, List.getD_cons_succ]
    ring
  | 1 => by
    unfold localEntry beam2D
    dsimp only
    simp only [List.getD_cons_zero, List.getD_cons_succ]
    ring
  | 2 => by
    unfold localEntry beam2D
    dsimp only
    simp only [List.getD_cons_zero, List.getD_cons_succ]
    ring
  | 3 => by
    unfold localEntry beam2D
    dsimp only
    simp only [List.getD_cons_zero, List.getD_cons_succ]
    ring
  | (a + 4) => by
    rw [localEntry_oob el _ 0 (by omega), localEntry_oob el _ 2 (by omega), add_zero]

theorem localEntry_row02 (el : Element) :
    ∀ b : ℕ, localEntry el 0 b + localEntry el 2 b = 0
  | 0 => by
    unfold localEntry beam2D
    dsimp only
    simp only [List.getD_cons_zero, List.getD_cons_succ]
    ring
  | 1 => by
    unfold localEntry beam2D
    dsimp only
    simp only [List.getD_cons_zero, List.getD_cons_succ]
    ring
  | 2 => by
    unfold localEntry beam2D
    dsimp only
    simp only [List.getD_cons_zero, List.getD_cons_succ]
    ring
  | 3 => by
    unfold localEntry beam2D
    dsimp only
    simp only [List.getD_cons_zero, List.getD_cons_succ]
    ring
  | (b + 4) => by
    have h0 : localEntry el 0 (b + 4) = 0 := by
      unfold localEntry beam2D
      dsimp only
      rw [List.getD_cons_zero]
      exact List.getD_eq_default _ _
        (by simp only [List.length_cons, List.length_nil]; omega)
    have h2 : localEntry el 2 (b + 4) = 0 := by
      unfold localEntry beam2D
      dsimp only
      rw [List.getD_cons_succ, List.getD_cons_succ, List.getD_cons_zero]
      exact List.getD_eq_default _ _
        (by simp only [List.length_cons, List.length_nil]; omega)
    rw [h0, h2, add_zero]

theorem sum_ite_dofL (n idx : ℕ) (hidx : idx < n) (P : Prop) [Decidable P] (v : ℚ) :
    (∑ i in Finset.range n, if P ∧ 2 * idx = 2 * i then v else 0) =
      if P then v else 0 := by
  rw [Finset.sum_eq_single idx]
  · congr 1
    rw [eq_iff_iff]
    exact ⟨fun h => h.1, fun h => ⟨h, rfl⟩⟩
  · intro i _ hne
    rw [if_neg]
    rintro ⟨_, h2⟩
    omega
  · intro habs
    exact absurd (Finset.mem_range.mpr hidx) habs

theorem sum_ite_oddL (n idx : ℕ) (P : Prop) [Decidable P] (v : ℚ) :
    (∑ i in Finset.range n, if P ∧ 2 * idx + 1 = 2 * i then v else 0) = 0 :=
  Finset.sum_eq_zero fun i _ => by
    rw [if_neg]
    rintro ⟨_, h⟩
    omega

theorem sum_ite_dofR (n idx : ℕ) (hidx : idx < n) (P : Prop) [Decidable P] (v : ℚ) :
    (∑ i in Finset.range n, if 2 * idx = 2 * i ∧ P then v else 0) =
      if P then v else 0 := by
  rw [Finset.sum_eq_single idx]
  · congr 1
    rw [eq_iff_iff]
    exact ⟨fun h => h.2, fun h => ⟨rfl, h⟩⟩
  · intro i _ hne
    rw [if_neg]
    rintro ⟨h2, _⟩
    omega
  · intro habs
    exact absurd (Finset.mem_range.mpr hidx) habs

theorem sum_ite_oddR (n idx : ℕ) (P : Prop) [Decidable P] (v : ℚ) :
    (∑ i in Finset.range n, if 2 * idx + 1 = 2 * i ∧ P then v else 0) = 0 :=
  Finset.sum_eq_zero fun i _ => by
    rw [if_neg]
    rintro ⟨h, _⟩
    omega

theorem ite_add_ite_zero (P : Prop) [Decidable P] (a b : ℚ) (hab : a + b = 0) :
    (if P then a else 0) + (if P then b else 0) = 0 := by
  by_cases h : P
  · rw [if_pos h, if_pos h, hab]
  · rw [if_neg h, if_neg h, add_zero]

theorem contrib_even_col (nodes : List Node) (el : Element) (r : ℕ)
    (hiS : nodeIndexMap nodes el.startNode.id < nodes.length)
    (hiE : nodeIndexMap nodes el.endNode.id < nodes.length) :
    (∑ i in Finset.range nodes.length,
      ((List.range 4).map (fun a => ((List.range 4).map (fun b =>
        if (dofIndices nodes el).getD a 0 = r ∧ (dofIndices nodes el).getD b 0 = 2 * i
        then localEntry el a b else 0)).sum)).sum) = 0 := by
  have hd : dofIndices nodes el =
      [2 * nodeIndexMap nodes el.startNode.id, 2 * nodeIndexMap nodes el.startNode.id + 1,
       2 * nodeIndexMap nodes el.endNode.id, 2 * nodeIndexMap nodes el.endNode.id + 1] := rfl
  simp only [show List.range 4 = [0, 1, 2, 3] from rfl, List.map_cons, List.map_nil,
    List.sum_cons, List.sum_nil, hd, List.getD_cons_zero, List.getD_cons_succ, add_zero]
  simp only [Finset.sum_add_distrib]
  rw [sum_ite_dofL _ _ hiS, sum_ite_oddL, sum_ite_dofL _ _ hiE, sum_ite_oddL,
    sum_ite_dofL _ _ hiS, sum_ite_oddL, sum_ite_dofL _ _ hiE, sum_ite_oddL,
    sum_ite_dofL _ _ hiS, sum_ite_oddL, sum_ite_dofL _ _ hiE, sum_ite_oddL,
    sum_ite_dofL _ _ hiS, sum_ite_oddL, sum_ite_dofL _ _ hiE, sum_ite_oddL]
  linarith [ite_add_ite_zero (2 * nodeIndexMap nodes el.startNode.id = r)
      (localEntry el 0 0) (localEntry el 0 2) (localEntry_col02 el 0),
    ite_add_ite_zero (2 * nodeIndexMap nodes el.startNode.id + 1 = r)
      (localEntry el 1 0) (localEntry el 1 2) (localEntry_col02 el 1),
    ite_add_ite_zero (2 * nodeIndexMap nodes el.endNode.id = r)
      (localEntry el 2 0) (localEntry el 2 2) (localEntry_col02 el 2),
    ite_add_ite_zero (2 * nodeIndexMap nodes el.endNode.id + 1 = r)
      (localEntry el 3 0) (localEntry el 3 2) (localEntry_col02 el 3)]

theorem contrib_even_row (nodes : List Node) (el : Element) (c : ℕ)
    (hiS : nodeIndexMap nodes el.startNode.id < nodes.length)
    (hiE : nodeIndexMap nodes el.endNode.id < nodes.length) :
    (∑ i in Finset.range nodes.length,
      ((List.range 4).map (fun a => ((List.range 4).map (fun b =>
        if (dofIndices nodes el).getD a 0 = 2 * i ∧ (dofIndices nodes el).getD b 0 = c
        then localEntry el a b else 0)).sum)).sum) = 0 := by
  have hd : dofIndices nodes el =
      [2 * nodeIndexMap nodes el.startNode.id, 2 * nodeIndexMap nodes el.startNode.id + 1,
       2 * nodeIndexMap nodes el.endNode.id, 2 * nodeIndexMap nodes el.endNode.id + 1] := rfl
  simp only [show List.range 4 = [0, 1, 2, 3] from rfl, List.map_cons, List.map_nil,
    List.sum_cons, List.sum_nil, hd, List.getD_cons_zero, List.getD_cons_succ, add_zero]
  simp only [Finset.sum_add_distrib]
  rw [sum_ite_dofR _ _ hiS, sum_ite_dofR _ _ hiS, sum_ite_dofR _ _ hiS, sum_ite_dofR _ _ hiS,
    sum_ite_oddR, sum_ite_oddR, sum_ite_oddR, sum_ite_oddR,
    sum_ite_dofR _ _ hiE, sum_ite_dofR _ _ hiE, sum_ite_dofR _ _ hiE, sum_ite_dofR _ _ hiE,
    sum_ite_oddR, sum_ite_oddR, sum_ite_oddR, sum_ite_oddR]
  linarith [ite_add_ite_zero (2 * nodeIndexMap nodes el.startNode.id = c)
      (localEntry el 0 0) (localEntry el 2 0) (localEntry_row02 el 0),
    ite_add_ite_zero (2 * nodeIndexMap nodes el.startNode.id + 1 = c)
      (localEntry el 0 1) (localEntry el 2 1) (localEntry_row02 el 1),
    ite_add_ite_zero (2 * nodeIndexMap nodes el.endNode.id = c)
      (localEntry el 0 2) (localEntry el 2 2) (localEntry_row02 el 2),
    ite_add_ite_zero (2 * nodeIndexMap nodes el.endNode.id + 1 = c)
      (localEntry el 0 3) (localEntry el 2 3) (localEntry_row02 el 3)]


/-! ## Singularity guard (C2) -/

theorem nodeIndexMap_lt (nodes : List Node) (id : ℕ) (hn : 0 < nodes.length) :
    nodeIndexMap nodes id < nodes.length := by
  unfold nodeIndexMap
  cases hl : (nodes.enum.filter (fun p => p.2.id = id)).getLast? with
  | none => simpa using hn
  | some p =>
    have hx : p ∈ (nodes.enum.filter (fun p => p.2.id = id)).getLast? :=
      Option.mem_def.mpr hl
    obtain ⟨hne, hp⟩ := List.mem_getLast?_eq_getLast hx
    have hmem : p ∈ nodes.enum.filter (fun p => p.2.id = id) :=
      hp ▸ List.getLast_mem hne
    have hlt := List.fst_lt_of_mem_enum (List.mem_of_mem_filter hmem)
    simpa using hlt

theorem assembleK_even_col_aux :
    ∀ (elements : List Element) (nodes : List Node) (K0 : ℕ → ℕ → ℚ) (r : ℕ),
    0 < nodes.length →
    (∑ i in Finset.range nodes.length, K0 r (2 * i)) = 0 →
    (∑ i in Finset.range nodes.length,
      elements.foldl (addElementK nodes) K0 r (2 * i)) = 0
  | [], _, _, _, _, hK => by simpa using hK
  | el :: rest, nodes, K0, r, hn, hK => by
    rw [List.foldl_cons]
    apply assembleK_even_col_aux rest nodes _ r hn
    simp only [addElementK]
    rw [Finset.sum_add_distrib, hK, zero_add]
    exact contrib_even_col nodes el r (nodeIndexMap_lt nodes _ hn)
      (nodeIndexMap_lt nodes _ hn)

theorem assembleK_even_col (nodes : List Node) (elements : List Element) (r : ℕ)
    (hn : 0 < nodes.length) :
    (∑ i in Finset.range nodes.length, assembleK nodes elements r (2 * i)) = 0 :=
  assembleK_even_col_aux elements nodes _ r hn (by simp)

theorem assembleK_even_row_aux :
    ∀ (elements : List Element) (nodes : List Node) (K0 : ℕ → ℕ → ℚ) (c : ℕ),
    0 < nodes.length →
    (∑ i in Finset.range nodes.length, K0 (2 * i) c) = 0 →
    (∑ i in Finset.range nodes.length,
      elements.foldl (addElementK nodes) K0 (2 * i) c) = 0
  | [], _, _, _, _, hK => by simpa using hK
  | el :: rest, nodes, K0, c, hn, hK => by
    rw [List.foldl_cons]
    apply assembleK_even_row_aux rest nodes _ c hn
    simp only [addElementK]
    rw [Finset.sum_add_distrib, hK, zero_add]
    exact contrib_even_row nodes el c (nodeIndexMap_lt nodes _ hn)
      (nodeIndexMap_lt nodes _ hn)

theorem assembleK_even_row (nodes : List Node) (elements : List Element) (c : ℕ)
    (hn : 0 < nodes.length) :
    (∑ i in Finset.range nodes.length, assembleK nodes elements (2 * i) c) = 0 :=
  assembleK_even_row_aux elements nodes _ c hn (by simp)

theorem freeDofs_enumFrom_all_free : ∀ (k : ℕ) (l : List Node),
    (∀ nd ∈ l, nd.support = SupportType.Free) →
    ((l.enumFrom k).flatMap (fun p =>
      (if p.2.isRestrainedY then [] else [2 * p.1]) ++
        (if p.2.isRestrainedRotation then [] else [2 * p.1 + 1])) =
      List.range' (2 * k) (2 * l.length))
  | _, [], _ => rfl
  | k, a :: rest, h => by
    rw [List.enumFrom_cons, List.flatMap_cons]
    have ha : a.support = SupportType.Free := h a (List.mem_cons_self _ _)
    have h1 : a.isRestrainedY = false := by
      simp [Node.isRestrainedY, ha]
    have h2 : a.isRestrainedRotation = false := by
      simp [Node.isRestrainedRotation, ha]
    dsimp only
    rw [h1, h2]
    simp only [if_false, Bool.false_eq_true]
    rw [freeDofs_enumFrom_all_free (k + 1) rest
      (fun nd hnd => h nd (List.mem_cons_of_mem _ hnd))]
    have hlen : 2 * (rest.length + 1) = 2 * rest.length + 1 + 1 := by ring
    rw [List.length_cons, hlen, List.range'_succ, List.range'_succ]
    have hk : 2 * (k + 1) = 2 * k + 1 + 1 := by ring
    rw [hk]
    rfl

theorem freeDofs_all_free (nodes : List Node)
    (h : ∀ nd ∈ nodes, nd.support = SupportType.Free) :
    freeDofs nodes = List.range (2 * nodes.length) := by
  unfold freeDofs
  rw [show nodes.enum = nodes.enumFrom 0 from rfl,
    freeDofs_enumFrom_all_free 0 nodes h, List.range_eq_range', Nat.mul_zero]

theorem range_even_filter_sum (N : ℕ) (g : ℕ → ℚ) :
    (∑ c in Finset.range (2 * N), if c % 2 = 0 then g c else 0) =
      ∑ i in Finset.range N, g (2 * i) := by
  induction N with
  | zero => simp
  | succ n ih =>
    have h2 : 2 * (n + 1) = 2 * n + 1 + 1 := by ring
    rw [h2, Finset.sum_range_succ, Finset.sum_range_succ, Finset.sum_range_succ, ih]
    have he : (2 * n) % 2 = 0 := by omega
    have ho : ¬((2 * n + 1) % 2 = 0) := by omega
    rw [if_pos he, if_neg ho, add_zero]

theorem detKff_all_free_zero (nodes : List Node) (elements : List Element)
    (hfree : freeDofs nodes = List.range (2 * nodes.length))
    (hn : 0 < nodes.length) :
    detL (freeDofs nodes).length (Kff nodes elements) = 0 := by
  have hlen : (freeDofs nodes).length = 2 * nodes.length := by
    rw [hfree, List.length_range]
  have hget : ∀ j : Fin (freeDofs nodes).length, (freeDofs nodes).get j = (j : ℕ) := by
    intro j
    rw [List.get_of_eq hfree j]
    exact List.get_range _ _
  rw [detL_eq_det]
  apply Matrix.exists_mulVec_eq_zero_iff.mp
  refine ⟨fun j => if ((freeDofs nodes).get j) % 2 = 0 then 1 else 0, ?_, ?_⟩
  · intro hv0
    have hpos : 0 < (freeDofs nodes).length := by omega
    have h0 := congrFun hv0 ⟨0, hpos⟩
    rw [hget ⟨0, hpos⟩] at h0
    norm_num at h0
  · funext i
    show (∑ j, Kff nodes elements i j *
      (if ((freeDofs nodes).get j) % 2 = 0 then 1 else 0)) = 0
    have hterm : ∀ j : Fin (freeDofs nodes).length,
        Kff nodes elements i j *
          (if ((freeDofs nodes).get j) % 2 = 0 then 1 else 0) =
        (fun c => if c % 2 = 0
          then assembleK nodes elements ((freeDofs nodes).get i) c else 0) (j : ℕ) := by
      intro j
      show Kff nodes elements i j * _ = _
      rw [show Kff nodes elements i j =
        assembleK nodes elements ((freeDofs nodes).get i) ((freeDofs nodes).get j) from rfl]
      rw [hget j, mul_ite, mul_one, mul_zero]
    rw [Finset.sum_congr rfl (fun j _ => hterm j),
      Fin.sum_univ_eq_sum_range
        (fun c => if c % 2 = 0
          then assembleK nodes elements ((freeDofs nodes).get i) c else 0)
        (freeDofs nodes).length,
      hlen, range_even_filter_sum]
    exact assembleK_even_col nodes elements _ hn

theorem supportAt_nil (x : ℚ) : supportAt [] x = SupportType.Free := rfl

theorem meshNodes_free (input : BeamInput) (hs : input.supports = []) :
    ∀ nd ∈ meshNodes input, nd.support = SupportType.Free := by
  intro nd hmem
  rw [meshNodes_eq_enum_map] at hmem
  obtain ⟨p, _, rfl⟩ := List.mem_map.mp hmem
  show supportAt input.supports p.2 = SupportType.Free
  rw [hs]
  rfl

theorem meshNodes_len_pos (input : BeamInput) (hL : 0 ≤ input.length) :
    0 < (meshNodes input).length := by
  have h0 : (0 : ℚ) ∈ meshCoords input := by
    rw [mem_meshCoords]
    exact ⟨List.mem_cons_self _ _, le_refl 0, hL⟩
  have := List.length_pos_of_mem h0
  rw [meshNodes_eq_enum_map, List.length_map, List.enum_length]
  exact this

theorem buildElements_ok (E I : ℚ) (hE : 0 < E) (hI : 0 < I) :
    ∀ (k : ℕ) (l : List Node), ∀ el ∈ buildElements E I k l,
      0 < el.length ∧ 0 < el.E ∧ 0 < el.I
  | _, [] => by
    intro el h
    cases h
  | k, a :: rest => by
    have ih := buildElements_ok E I hE hI (k + 1) rest
    intro el hmem
    cases rest with
    | nil =>
      rw [show buildElements E I k [a] = [] from rfl] at hmem
      cases hmem
    | cons b tl =>
      rw [show buildElements E I k (a :: b :: tl) =
        (if qabs (b.x - a.x) > epsGeom then [Element.mk k a b E I] else []) ++
          buildElements E I (k + 1) (b :: tl) from rfl] at hmem
      rcases List.mem_append.mp hmem with h1 | h2
      · split at h1
        case isTrue hcond =>
          rcases List.mem_singleton.mp h1 with rfl
          have heps : (0 : ℚ) < epsGeom := by norm_num [epsGeom]
          exact ⟨by dsimp [Element.length]; linarith, hE, hI⟩
        case isFalse => cases h1
      · exact ih el h2

theorem solve_unstable_iff (nodes : List Node) (elements : List Element)
    (loads : List Load)
    (hel : ∀ el ∈ elements, 0 < el.length ∧ 0 < el.E ∧ 0 < el.I) :
    solve nodes elements loads = Except.error BeamError.unstableStructure ↔
      freeDofs nodes ≠ [] ∧
        qabs (detL (freeDofs nodes).length (Kff nodes elements)) < detThreshold := by
  have hguard : elements.any (fun el => decide (el.length ≤ 0 ∨ el.E ≤ 0 ∨ el.I ≤ 0)) =
      false := by
    rw [List.any_eq_false]
    intro el hmem
    obtain ⟨h1, h2, h3⟩ := hel el hmem
    simp only [decide_eq_true_eq, not_or, not_le]
    exact ⟨h1, h2, h3⟩
  simp only [solve]
  rw [if_neg (by rw [hguard]; exact Bool.false_ne_true)]
  by_cases hfree : (freeDofs nodes).isEmpty
  · rw [if_pos hfree]
    constructor
    · intro h
      cases h
    · rintro ⟨hne, _⟩
      exact absurd (List.isEmpty_iff.mp hfree) hne
  · rw [if_neg hfree]
    by_cases hdet : qabs (detL (freeDofs nodes).length (Kff nodes elements)) < detThreshold
    · rw [if_pos hdet]
      constructor
      · intro _
        refine ⟨fun he => hfree ?_, hdet⟩
        rw [he]
        rfl
      · intro _
        rfl
    · rw [if_neg hdet]
      constructor
      · intro h
        exact Except.noConfusion h
      · intro hc
        exact absurd hc.2 hdet

theorem analyze_no_supports_unstable (input : BeamInput)
    (hE : 0 < input.E) (hI : 0 < input.I) (hL : 0 < input.length)
    (hs : input.supports = []) :
    analyze input = Except.error BeamError.unstableStructure := by
  unfold analyze generateMesh
  dsimp only
  have hfreeAll := meshNodes_free input hs
  have hfree := freeDofs_all_free (meshNodes input) hfreeAll
  have hn := meshNodes_len_pos input (le_of_lt hL)
  apply (solve_unstable_iff _ _ _
    (buildElements_ok input.E input.I hE hI 0 (meshNodes input))).mpr
  constructor
  · rw [hfree]
    intro hcon
    have h2 : 2 * (meshNodes input).length = 0 := by
      have h3 := congrArg List.length hcon
      rwa [List.length_range, List.length_nil] at h3
    omega
  · rw [detKff_all_free_zero _ _ hfree hn]
    show qabs 0 < detThreshold
    rw [show qabs 0 = 0 from rfl]
    norm_num [detThreshold]


/-- C2: `solve` fails with `UnstableStructure` exactly when there is at least
one free DOF and the assembled free-free stiffness submatrix `K_ff` fails the
determinant stability test `|det K_ff| < 1e-10` (in the exact-arithmetic model
the solution of a system that passes the test is always finite, so the
source's non-finiteness branch never fires); in particular every input with
positive `length`, `E` and `I`, at least one load and no supports is rejected
with `UnstableStructure`. -/
theorem C2_singularity_guard :
    (∀ (nodes : List Node) (elements : List Element) (loads : List Load),
      (∀ el ∈ elements, 0 < el.length ∧ 0 < el.E ∧ 0 < el.I) →
      (solve nodes elements loads = Except.error BeamError.unstableStructure ↔
        freeDofs nodes ≠ [] ∧
          qabs (detL (freeDofs nodes).length (Kff nodes elements)) < detThreshold)) ∧
    (∀ input : BeamInput, 0 < input.E → 0 < input.I → 0 < input.length →
      input.supports = [] → input.loads ≠ [] →
      analyze input = Except.error BeamError.unstableStructure) :=
  ⟨fun nodes elements loads hel => solve_unstable_iff nodes elements loads hel,
   fun input hE hI hL hs _ => analyze_no_supports_unstable input hE hI hL hs⟩

/-- Witness for C2: the unsupported single-load beam `w2Input` is rejected
with `UnstableStructure`. -/
theorem C2_singularity_guard_witness :
    analyze w2Input = Except.error BeamError.unstableStructure :=
  C2_singularity_guard.2 w2Input (by norm_num [w2Input]) (by norm_num [w2Input])
    (by norm_num [w2Input]) rfl (by simp [w2Input])


/-! ## Fixed-end-action equivalencing (C6) -/

theorem buildElements_consec (E I : ℚ) :
    ∀ (k : ℕ) (l : List Node), ∀ el ∈ buildElements E I k l,
      ∃ m : ℕ, l.get? m = some el.startNode ∧ l.get? (m + 1) = some el.endNode
  | _, [] => by
    intro el h
    cases h
  | k, a :: rest => by
    have ih := buildElements_consec E I (k + 1) rest
    intro el hmem
    cases rest with
    | nil =>
      rw [show buildElements E I k [a] = [] from rfl] at hmem
      cases hmem
    | cons b tl =>
      rw [show buildElements E I k (a :: b :: tl) =
        (if qabs (b.x - a.x) > epsGeom then [Element.mk k a b E I] else []) ++
          buildElements E I (k + 1) (b :: tl) from rfl] at hmem
      rcases List.mem_append.mp hmem with h1 | h2
      · split at h1
        case isTrue hcond =>
          rcases List.mem_singleton.mp h1 with rfl
          exact ⟨0, rfl, rfl⟩
        case isFalse => cases h1
      · obtain ⟨m, hm1, hm2⟩ := ih el h2
        exact ⟨m + 1, hm1, hm2⟩

theorem meshNodes_get_id (input : BeamInput) (m : ℕ) (nd : Node)
    (h : (meshNodes input).get? m = some nd) : nd.id = m := by
  rw [meshNodes_eq_enum_map, List.get?_map, List.get?_enum] at h
  cases hc : (meshCoords input).get? m with
  | none =>
    rw [hc] at h
    cases h
  | some x =>
    rw [hc] at h
    simp only [Option.map_some'] at h
    injection h with h
    rw [← h]

theorem meshNodes_enum_id (input : BeamInput) :
    ∀ p ∈ (meshNodes input).enum, p.2.id = p.1 := by
  rintro ⟨i, nd⟩ hp
  rw [show (meshNodes input).enum = (meshNodes input).enumFrom 0 from rfl,
    List.mk_mem_enumFrom_iff_le_and_get?_sub] at hp
  exact meshNodes_get_id input i nd (by rw [← Nat.sub_zero i]; exact hp.2)

theorem enumFrom_filter_fst_lt : ∀ (l : List Node) (s t : ℕ), t < s →
    (l.enumFrom s).filter (fun p => decide (p.1 = t)) = []
  | [], _, _, _ => rfl
  | a :: rest, s, t, h => by
    rw [List.enumFrom_cons, List.filter_cons_of_neg (by simp <;> omega)]
    exact enumFrom_filter_fst_lt rest (s + 1) t (by omega)

theorem enumFrom_filter_fst_eq : ∀ (l : List Node) (k m : ℕ) (nd : Node),
    l.get? m = some nd →
    (l.enumFrom k).filter (fun p => decide (p.1 = k + m)) = [(k + m, nd)]
  | [], _, _, _, h => by cases h
  | a :: rest, k, 0, nd, h => by
    injection h with h
    subst h
    rw [Nat.add_zero, List.enumFrom_cons, List.filter_cons_of_pos (by simp),
      enumFrom_filter_fst_lt rest (k + 1) k (by omega)]
  | a :: rest, k, m + 1, nd, h => by
    rw [List.enumFrom_cons, List.filter_cons_of_neg (by simp <;> omega),
      show k + (m + 1) = (k + 1) + m from by ring]
    exact enumFrom_filter_fst_eq rest (k + 1) m nd h

theorem nodeIndexMap_pos (nodes : List Node) (m : ℕ) (nd : Node)
    (hid : ∀ p ∈ nodes.enum, p.2.id = p.1)
    (h : nodes.get? m = some nd) : nodeIndexMap nodes nd.id = m := by
  have hmem : (m, nd) ∈ nodes.enum := by
    rw [show nodes.enum = nodes.enumFrom 0 from rfl,
      List.mk_mem_enumFrom_iff_le_and_get?_sub]
    exact ⟨Nat.zero_le m, by rwa [Nat.sub_zero]⟩
  have hndid : nd.id = m := hid (m, nd) hmem
  have h5 := enumFrom_filter_fst_eq nodes 0 m nd h
  rw [Nat.zero_add] at h5
  unfold nodeIndexMap
  have hcong : nodes.enum.filter (fun p => decide (p.2.id = nd.id)) =
      nodes.enum.filter (fun p => decide (p.1 = nd.id)) :=
    List.filter_congr (fun p hp => by rw [hid p hp])
  rw [hcong, hndid, show nodes.enum = nodes.enumFrom 0 from rfl, h5]
  rfl

theorem findNodeNear_exact : ∀ (l : List Node) (m : ℕ) (nd : Node),
    l.Pairwise (fun p q => epsFind < q.x - p.x) →
    l.get? m = some nd → findNodeNear l nd.x = some nd
  | [], _, _, _, h => by cases h
  | a :: rest, 0, nd, _, h => by
    injection h with h
    subst h
    unfold findNodeNear
    apply List.find?_cons_of_pos
    simp only [sub_self, decide_eq_true_eq]
    rw [show qabs 0 = (0 : ℚ) from rfl]
    norm_num [epsFind]
  | a :: rest, m + 1, nd, hp, h => by
    have hmem : nd ∈ rest := List.get?_mem h
    have hrel : epsFind < nd.x - a.x := (List.pairwise_cons.mp hp).1 nd hmem
    unfold findNodeNear
    rw [List.find?_cons_of_neg]
    · exact findNodeNear_exact rest m nd (List.pairwise_cons.mp hp).2 h
    · simp only [decide_eq_true_eq]
      intro hcon
      have h1 : a.x - nd.x < 0 := by
        have h2 : (0 : ℚ) < epsFind := by norm_num [epsFind]
        linarith
      rw [show qabs (a.x - nd.x) = -(a.x - nd.x) from if_pos h1] at hcon
      linarith

theorem pairwise_get?_rel {R : Node → Node → Prop} {l : List Node} (hp : l.Pairwise R)
    {m : ℕ} {a b : Node} (ha : l.get? m = some a) (hb : l.get? (m + 1) = some b) :
    R a b := by
  obtain ⟨hm, hga⟩ := List.get?_eq_some.mp ha
  obtain ⟨hm1, hgb⟩ := List.get?_eq_some.mp hb
  have := List.pairwise_iff_get.mp hp ⟨m, hm⟩ ⟨m + 1, hm1⟩ (by simp [Fin.lt_def])
  rwa [hga, hgb] at this

theorem mem_processLoads_distributed (inputs : List BeamLoadInput)
    (elements : List Element) (raw : BeamLoadInput) (a b : ℚ) (el : Element)
    (hraw : raw ∈ inputs) (htype : raw.type = LoadType.DistributedForce)
    (ha : raw.startX = some a) (hb : raw.endX = some b) (hel : el ∈ elements)
    (hcont : a - epsMerge ≤ el.startNode.x ∧ el.endNode.x ≤ b + epsMerge) :
    Load.distributedForce raw.id raw.magnitude el.startNode.x el.endNode.x
        (raw.category.getD LoadCategory.Dead) ∈ processLoads inputs elements := by
  unfold processLoads
  rw [List.mem_flatMap]
  refine ⟨raw, hraw, ?_⟩
  unfold processOne
  rw [htype, ha, hb]
  dsimp only
  rw [List.mem_filterMap]
  exact ⟨el, hel, by rw [if_pos hcont]⟩


/-- C6 (corrected): provided the mesh nodes are pairwise more than `1e-3`
apart, every raw distributed load of intensity `w` over `[a,b]` is split by
`processLoads` into one per-element load for each mesh element contained in
the span (containment within `1e-4`), and that load's pass over the force
vector adds exactly `w·Lₑ/2` at the vertical DOFs of the element's two
endpoint nodes, `+w·Lₑ²/12` at the start node's rotation DOF and `−w·Lₑ²/12`
at the end node's rotation DOF.  Without the separation hypothesis the claim
fails: the solver re-locates each endpoint to the first node within `1e-3`,
which can be a different node (see the counterexample). -/
theorem C6_fea_equivalencing (input : BeamInput) (raw : BeamLoadInput) (a b : ℚ)
    (el : Element) (F : ℕ → ℚ) (d : ℕ)
    (hsep : (generateMesh input).nodes.Pairwise (fun p q => epsFind < q.x - p.x))
    (hraw : raw ∈ input.loads) (htype : raw.type = LoadType.DistributedForce)
    (ha : raw.startX = some a) (hb : raw.endX = some b)
    (hel : el ∈ (generateMesh input).elements)
    (hcont : a - epsMerge ≤ el.startNode.x ∧ el.endNode.x ≤ b + epsMerge) :
    (Load.distributedForce raw.id raw.magnitude el.startNode.x el.endNode.x
        (raw.category.getD LoadCategory.Dead) ∈
      processLoads input.loads (generateMesh input).elements) ∧
    addLoadF (generateMesh input).nodes F
        (Load.distributedForce raw.id raw.magnitude el.startNode.x el.endNode.x
          (raw.category.getD LoadCategory.Dead)) d =
      F d + ((if d = 2 * el.startNode.id then raw.magnitude * el.length / 2 else 0)
        + (if d = 2 * el.startNode.id + 1
           then raw.magnitude * el.length * el.length / 12 else 0)
        + (if d = 2 * el.endNode.id then raw.magnitude * el.length / 2 else 0)
        + (if d = 2 * el.endNode.id + 1
           then -(raw.magnitude * el.length * el.length) / 12 else 0)) := by
  constructor
  · exact mem_processLoads_distributed input.loads _ raw a b el hraw htype ha hb hel hcont
  · obtain ⟨m, hm1, hm2⟩ := buildElements_consec input.E input.I 0 (meshNodes input)
      el (by rwa [generateMesh_elements] at hel)
    have hsep' : (meshNodes input).Pairwise (fun p q => epsFind < q.x - p.x) := by
      rwa [generateMesh_nodes] at hsep
    have hids := meshNodes_enum_id input
    have hsid : el.startNode.id = m := meshNodes_get_id input m _ hm1
    have heid : el.endNode.id = m + 1 := meshNodes_get_id input (m + 1) _ hm2
    have hmapS : nodeIndexMap (meshNodes input) el.startNode.id = m :=
      nodeIndexMap_pos _ m _ hids hm1
    have hmapE : nodeIndexMap (meshNodes input) el.endNode.id = m + 1 :=
      nodeIndexMap_pos _ (m + 1) _ hids hm2
    have hfindS : findNodeNear (meshNodes input) el.startNode.x = some el.startNode :=
      findNodeNear_exact _ m _ hsep' hm1
    have hfindE : findNodeNear (meshNodes input) el.endNode.x = some el.endNode :=
      findNodeNear_exact _ (m + 1) _ hsep' hm2
    have hrel : epsFind < el.endNode.x - el.startNode.x :=
      pairwise_get?_rel hsep' hm1 hm2
    have hepsF : (0 : ℚ) < epsFind := by norm_num [epsFind]
    have hL : ¬(el.endNode.x - el.startNode.x ≤ epsGeom) := by
      have : epsGeom < epsFind := by norm_num [epsGeom, epsFind]
      linarith
    have hlen : el.length = el.endNode.x - el.startNode.x := by
      unfold Element.length qabs
      rw [if_neg (not_lt.mpr (by linarith))]
    rw [generateMesh_nodes]
    unfold addLoadF
    dsimp only
    rw [if_neg hL, hfindS, hfindE]
    dsimp only
    rw [hmapS, hmapE, hsid, heid, hlen]
    ring

/-- Witness for C6: on `w6Input` (nodes at `0` and `10`), the single element
receives `w·L/2 = −5000` at DOF `0` from the full-span distributed load. -/
theorem C6_fea_equivalencing_witness :
    (Load.distributedForce w6Raw.id w6Raw.magnitude w6El.startNode.x w6El.endNode.x
        (w6Raw.category.getD LoadCategory.Dead) ∈
      processLoads w6Input.loads (generateMesh w6Input).elements) ∧
    addLoadF (generateMesh w6Input).nodes (fun _ => 0)
        (Load.distributedForce w6Raw.id w6Raw.magnitude w6El.startNode.x w6El.endNode.x
          (w6Raw.category.getD LoadCategory.Dead)) 0 =
      (fun _ => (0 : ℚ)) 0 +
        ((if 0 = 2 * w6El.startNode.id then w6Raw.magnitude * w6El.length / 2 else 0)
        + (if 0 = 2 * w6El.startNode.id + 1
           then w6Raw.magnitude * w6El.length * w6El.length / 12 else 0)
        + (if 0 = 2 * w6El.endNode.id then w6Raw.magnitude * w6El.length / 2 else 0)
        + (if 0 = 2 * w6El.endNode.id + 1
           then -(w6Raw.magnitude * w6El.length * w6El.length) / 12 else 0)) := by
  have hnodes : (generateMesh w6Input).nodes =
      [⟨0, 0, SupportType.Pin⟩, ⟨1, 10, SupportType.Roller⟩] := by
    with_unfolding_all rfl
  have helems : (generateMesh w6Input).elements = [w6El] := by
    with_unfolding_all rfl
  refine C6_fea_equivalencing w6Input w6Raw 0 10 w6El (fun _ => 0) 0 ?_
    (List.mem_cons_self _ _) rfl rfl rfl ?_ ?_
  · rw [hnodes]
    refine List.Pairwise.cons (fun q hq => ?_) (List.pairwise_singleton _ _)
    rcases List.mem_singleton.mp hq with rfl
    norm_num [epsFind]
  · rw [helems]
    exact List.mem_cons_self _ _
  · constructor
    · show (0 : ℚ) - epsMerge ≤ 0
      norm_num [epsMerge]
    · show (10 : ℚ) ≤ 10 + epsMerge
      norm_num [epsMerge]

/-- Counterexample to C6 as stated: in `c6Input` the distributed load starts
at `5.0005`, creating mesh nodes `0, 5, 5.0005, 10`.  The element
`[5.0005, 10]` (start node id `2`) is the only element contained in the span,
so the claim requires `F(4) = w·Lₑ/2 ≠ 0` and `F(5) = w·Lₑ²/12 ≠ 0`; but the
solver re-locates the endpoint `5.0005` to the first node within `1e-3` —
the node at `5` — so both entries stay `0`. -/
theorem C6_counterexample_shifted_node :
    ((generateMesh c6Input).nodes.get? 2 =
      some ⟨2, 10001 / 2000, SupportType.Free⟩) ∧
    ((⟨2, ⟨2, 10001 / 2000, SupportType.Free⟩, ⟨3, 10, SupportType.Fixed⟩, 1, 1⟩ :
        Element) ∈ (generateMesh c6Input).elements) ∧
    (Load.distributedForce 1 (-1000) (10001 / 2000) 10 LoadCategory.Dead ∈
      processLoads c6Input.loads (generateMesh c6Input).elements) ∧
    assembleF (generateMesh c6Input).nodes
      (processLoads c6Input.loads (generateMesh c6Input).elements) 4 = 0 ∧
    assembleF (generateMesh c6Input).nodes
      (processLoads c6Input.loads (generateMesh c6Input).elements) 5 = 0 ∧
    (-1000 : ℚ) * ((10 : ℚ) - 10001 / 2000) / 2 ≠ 0 ∧
    (-1000 : ℚ) * ((10 : ℚ) - 10001 / 2000) * ((10 : ℚ) - 10001 / 2000) / 12 ≠ 0 := by
  refine ⟨by with_unfolding_all rfl, ?_, ?_, by with_unfolding_all rfl,
    by with_unfolding_all rfl, by norm_num, by norm_num⟩
  · have helems : (generateMesh c6Input).elements =
        [⟨0, ⟨0, 0, SupportType.Fixed⟩, ⟨1, 5, SupportType.Free⟩, 1, 1⟩,
         ⟨1, ⟨1, 5, SupportType.Free⟩, ⟨2, 10001 / 2000, SupportType.Free⟩, 1, 1⟩,
         ⟨2, ⟨2, 10001 / 2000, SupportType.Free⟩, ⟨3, 10, SupportType.Fixed⟩, 1, 1⟩] := by
      with_unfolding_all rfl
    rw [helems]
    exact List.mem_cons_of_mem _ (List.mem_cons_of_mem _ (List.mem_cons_self _ _))
  · have hloads : processLoads c6Input.loads (generateMesh c6Input).elements =
        [Load.pointForce 0 (-100) 5 LoadCategory.Dead,
         Load.distributedForce 1 (-1000) (10001 / 2000) 10 LoadCategory.Dead] := by
      with_unfolding_all rfl
    rw [hloads]
    exact List.mem_cons_of_mem _ (List.mem_cons_self _ _)


/-! ## Global equilibrium (C1): sum and contribution lemmas -/

theorem qabs_sub_comm (a b : ℚ) : qabs (a - b) = qabs (b - a) := by
  rw [show a - b = -(b - a) from by ring, qabs_neg]

theorem sum_ite_evenL (n t : ℕ) (h : t < n) (v : ℚ) :
    (∑ i in Finset.range n, if 2 * i = 2 * t then v else 0) = v := by
  rw [Finset.sum_eq_single t]
  · rw [if_pos rfl]
  · intro i _ hne
    rw [if_neg]
    omega
  · intro habs
    exact absurd (Finset.mem_range.mpr h) habs

theorem sum_ite_even_oddL (n t : ℕ) (v : ℚ) :
    (∑ i in Finset.range n, if 2 * i = 2 * t + 1 then v else 0) = 0 :=
  Finset.sum_eq_zero fun i _ => by
    rw [if_neg]
    omega

theorem addLoadF_add (nodes : List Node) (F : ℕ → ℚ) (load : Load) (d : ℕ) :
    addLoadF nodes F load d = F d + addLoadF nodes (fun _ => 0) load d := by
  cases load with
  | pointForce id mag x cat =>
    unfold addLoadF
    dsimp only
    cases hf : findNodeNear nodes x with
    | none => exact (add_zero _).symm
    | some nd =>
      dsimp only
      by_cases h : d = 2 * nodeIndexMap nodes nd.id
      · rw [if_pos h, if_pos h]
        ring
      · rw [if_neg h, if_neg h]
        exact (add_zero _).symm
  | pointMoment id mag x cat =>
    unfold addLoadF
    dsimp only
    cases hf : findNodeNear nodes x with
    | none => exact (add_zero _).symm
    | some nd =>
      dsimp only
      by_cases h : d = 2 * nodeIndexMap nodes nd.id + 1
      · rw [if_pos h, if_pos h]
        ring
      · rw [if_neg h, if_neg h]
        exact (add_zero _).symm
  | distributedForce id w a b cat =>
    unfold addLoadF
    dsimp only
    by_cases hL : b - a ≤ epsGeom
    · rw [if_pos hL, if_pos hL]
      exact (add_zero _).symm
    · rw [if_neg hL, if_neg hL]
      cases hfs : findNodeNear nodes a with
      | none =>
        cases hfe : findNodeNear nodes b with
        | none => exact (add_zero _).symm
        | some e => exact (add_zero _).symm
      | some st =>
        cases hfe : findNodeNear nodes b with
        | none => exact (add_zero _).symm
        | some e =>
          dsimp only
          ring

theorem assembleF_even_fold (nodes : List Node) :
    ∀ (loads : List Load) (F0 : ℕ → ℚ),
    (∑ i in Finset.range nodes.length, loads.foldl (addLoadF nodes) F0 (2 * i)) =
      (∑ i in Finset.range nodes.length, F0 (2 * i)) +
        (loads.map (fun l => ∑ i in Finset.range nodes.length,
          addLoadF nodes (fun _ => 0) l (2 * i))).sum
  | [], F0 => by simp
  | l :: rest, F0 => by
    rw [List.foldl_cons, assembleF_even_fold nodes rest (addLoadF nodes F0 l),
      List.map_cons, List.sum_cons]
    have h1 : (∑ i in Finset.range nodes.length, addLoadF nodes F0 l (2 * i)) =
        (∑ i in Finset.range nodes.length, F0 (2 * i)) +
          ∑ i in Finset.range nodes.length, addLoadF nodes (fun _ => 0) l (2 * i) := by
      rw [← Finset.sum_add_distrib]
      exact Finset.sum_congr rfl fun i _ => addLoadF_add nodes F0 l (2 * i)
    rw [h1]
    ring

theorem filterMap_if {α β : Type} (p : α → Prop) [DecidablePred p] (f : α → β) :
    ∀ l : List α,
      (l.filterMap (fun x => if p x then some (f x) else none)) =
        (l.filter (fun x => decide (p x))).map f
  | [] => rfl
  | a :: rest => by
    rw [List.filterMap_cons]
    by_cases h : p a
    · rw [if_pos h, List.filter_cons_of_pos (by simpa using h), List.map_cons,
        filterMap_if p f rest]
    · rw [if_neg h, List.filter_cons_of_neg (by simpa using h), filterMap_if p f rest]

theorem sum_map_flatMap {α β : Type} (g : β → ℚ) (f : α → List β) :
    ∀ ls : List α,
      ((ls.flatMap f).map g).sum = (ls.map (fun l => ((f l).map g).sum)).sum
  | [] => rfl
  | a :: rest => by
    rw [List.flatMap_cons, List.map_append, List.sum_append, List.map_cons,
      List.sum_cons, sum_map_flatMap g f rest]

theorem findNodeNear_of_coord (nodes : List Node) (x : ℚ)
    (h : ∃ nd ∈ nodes, nd.x = x) : ∃ nd', findNodeNear nodes x = some nd' := by
  obtain ⟨nd, hmem, hx⟩ := h
  unfold findNodeNear
  have hsome : (nodes.find? (fun n => decide (qabs (n.x - x) < epsFind))).isSome := by
    rw [List.find?_isSome]
    refine ⟨nd, hmem, ?_⟩
    rw [hx, sub_self, decide_eq_true_eq, show qabs 0 = (0 : ℚ) from rfl]
    norm_num [epsFind]
  exact Option.isSome_iff_exists.mp hsome


theorem even_sum_pointForce (nodes : List Node) (id : ℕ) (mag x : ℚ)
    (cat : LoadCategory) (hn : 0 < nodes.length) (hA : ∃ nd ∈ nodes, nd.x = x) :
    (∑ i in Finset.range nodes.length,
      addLoadF nodes (fun _ => 0) (Load.pointForce id mag x cat) (2 * i)) = mag := by
  obtain ⟨nd, hf⟩ := findNodeNear_of_coord nodes x hA
  unfold addLoadF
  dsimp only
  rw [hf]
  dsimp only
  simp only [zero_add]
  exact sum_ite_evenL nodes.length _ (nodeIndexMap_lt nodes nd.id hn) mag

theorem even_sum_pointMoment (nodes : List Node) (id : ℕ) (mag x : ℚ)
    (cat : LoadCategory) :
    (∑ i in Finset.range nodes.length,
      addLoadF nodes (fun _ => 0) (Load.pointMoment id mag x cat) (2 * i)) = 0 := by
  unfold addLoadF
  dsimp only
  cases hf : findNodeNear nodes x with
  | none => simp
  | some nd =>
    dsimp only
    simp only [zero_add]
    exact sum_ite_even_oddL nodes.length _ mag

theorem even_sum_distributed (nodes : List Node) (id : ℕ) (w a b : ℚ)
    (cat : LoadCategory) (hL : ¬(b - a ≤ epsGeom)) (hn : 0 < nodes.length)
    (hA : ∃ nd ∈ nodes, nd.x = a) (hB : ∃ nd ∈ nodes, nd.x = b) :
    (∑ i in Finset.range nodes.length,
      addLoadF nodes (fun _ => 0) (Load.distributedForce id w a b cat) (2 * i)) =
      w * (b - a) := by
  obtain ⟨s, hfs⟩ := findNodeNear_of_coord nodes a hA
  obtain ⟨e, hfe⟩ := findNodeNear_of_coord nodes b hB
  unfold addLoadF
  dsimp only
  rw [if_neg hL, hfs, hfe]
  dsimp only
  simp only [zero_add, Finset.sum_add_distrib]
  rw [sum_ite_evenL nodes.length _ (nodeIndexMap_lt nodes s.id hn),
    sum_ite_evenL nodes.length _ (nodeIndexMap_lt nodes e.id hn),
    sum_ite_even_oddL, sum_ite_even_oddL]
  ring

theorem separated_forall (input : BeamInput) (hsep : FeatureSeparated input epsMerge) :
    ∀ x ∈ collectPoints input, ∀ y ∈ collectPoints input,
      x = y ∨ epsMerge < qabs (x - y) := by
  intro x hx y hy
  by_cases hxy : x = y
  · exact Or.inl hxy
  · have hsym : Symmetric (fun a b : ℚ => a = b ∨ epsMerge < qabs (a - b)) := by
      intro a b hab
      rcases hab with h | h
      · exact Or.inl h.symm
      · right
        rwa [qabs_sub_comm]
    exact List.Pairwise.forall hsym hsep hx hy hxy

theorem sep_ge_iff (input : BeamInput) (hsep : FeatureSeparated input epsMerge)
    (a x : ℚ) (ha : a ∈ collectPoints input) (hx : x ∈ collectPoints input) :
    a - epsMerge ≤ x ↔ a ≤ x := by
  have heps : (0 : ℚ) < epsMerge := by norm_num [epsMerge]
  constructor
  · intro h
    rcases separated_forall input hsep a ha x hx with rfl | hgt
    · exact le_refl a
    · by_contra hlt
      push_neg at hlt
      rw [show qabs (a - x) = a - x from if_neg (not_lt.mpr (by linarith))] at hgt
      linarith
  · intro h
    linarith

theorem sep_le_iff (input : BeamInput) (hsep : FeatureSeparated input epsMerge)
    (b x : ℚ) (hb : b ∈ collectPoints input) (hx : x ∈ collectPoints input) :
    x ≤ b + epsMerge ↔ x ≤ b := by
  have heps : (0 : ℚ) < epsMerge := by norm_num [epsMerge]
  constructor
  · intro h
    rcases separated_forall input hsep x hx b hb with rfl | hgt
    · exact le_refl x
    · by_contra hlt
      push_neg at hlt
      rw [show qabs (x - b) = x - b from if_neg (not_lt.mpr (by linarith))] at hgt
      linarith
  · intro h
    linarith

theorem meshNodes_get?_x (input : BeamInput) (m : ℕ) (nd : Node)
    (h : (meshNodes input).get? m = some nd) :
    (meshCoords input).get? m = some nd.x := by
  rw [meshNodes_eq_enum_map, List.get?_map, List.get?_enum] at h
  cases hc : (meshCoords input).get? m with
  | none =>
    rw [hc] at h
    cases h
  | some x =>
    rw [hc] at h
    simp only [Option.map_some'] at h
    injection h with h
    rw [← h]

theorem meshNodes_length (input : BeamInput) :
    (meshNodes input).length = (meshCoords input).length := by
  rw [meshNodes_eq_enum_map, List.length_map, List.enum_length]

theorem meshNodes_x_mem_collect (input : BeamInput) (nd : Node)
    (h : nd ∈ meshNodes input) : nd.x ∈ collectPoints input := by
  have : nd.x ∈ meshCoords input := by
    rw [← meshNodes_map_x]
    exact List.mem_map_of_mem _ h
  exact (mem_meshCoords.mp this).1

theorem meshNodes_chain_sep (input : BeamInput) (hsep : FeatureSeparated input epsMerge) :
    List.Chain' (fun p q : Node => epsMerge < q.x - p.x) (meshNodes input) := by
  rw [List.chain'_iff_get]
  intro i hi
  set nodes := meshNodes input with hnodes
  have hi1 : i < nodes.length := by omega
  have hi2 : i + 1 < nodes.length := by omega
  have hgi : nodes.get? i = some (nodes.get ⟨i, hi1⟩) := List.get?_eq_get hi1
  have hgj : nodes.get? (i + 1) = some (nodes.get ⟨i + 1, hi2⟩) := List.get?_eq_get hi2
  have hci := meshNodes_get?_x input i _ hgi
  have hcj := meshNodes_get?_x input (i + 1) _ hgj
  obtain ⟨hic, hgci⟩ := List.get?_eq_some.mp hci
  obtain ⟨hjc, hgcj⟩ := List.get?_eq_some.mp hcj
  have hlt : (nodes.get ⟨i, hi1⟩).x < (nodes.get ⟨i + 1, hi2⟩).x := by
    have := List.pairwise_iff_get.mp (meshCoords_sorted_lt input)
      ⟨i, hic⟩ ⟨i + 1, hjc⟩ (by simp [Fin.lt_def])
    rwa [hgci, hgcj] at this
  have hmi : (nodes.get ⟨i, hi1⟩).x ∈ collectPoints input :=
    meshNodes_x_mem_collect input _ (nodes.get_mem _ _)
  have hmj : (nodes.get ⟨i + 1, hi2⟩).x ∈ collectPoints input :=
    meshNodes_x_mem_collect input _ (nodes.get_mem _ _)
  rcases separated_forall input hsep _ hmi _ hmj with heq | hgt
  · exact absurd heq (ne_of_lt hlt)
  · rwa [show qabs ((nodes.get ⟨i, hi1⟩).x - (nodes.get ⟨i + 1, hi2⟩).x) =
      (nodes.get ⟨i + 1, hi2⟩).x - (nodes.get ⟨i, hi1⟩).x from by
        rw [show (nodes.get ⟨i, hi1⟩).x - (nodes.get ⟨i + 1, hi2⟩).x =
          -((nodes.get ⟨i + 1, hi2⟩).x - (nodes.get ⟨i, hi1⟩).x) from by ring, qabs_neg]
        exact if_neg (not_lt.mpr (by linarith))] at hgt


theorem chain_head_lt : ∀ (rest : List Node) (n0 : Node),
    List.Chain' (fun p q : Node => epsGeom < q.x - p.x) (n0 :: rest) →
    ∀ nd ∈ rest, n0.x < nd.x
  | [], _, _, nd, h => absurd h (List.not_mem_nil nd)
  | n1 :: rest', n0, hc, nd, h => by
    have heps : (0 : ℚ) < epsGeom := by norm_num [epsGeom]
    obtain ⟨h01, hc'⟩ := List.chain'_cons.mp hc
    rcases List.mem_cons.mp h with rfl | h'
    · linarith
    · have := chain_head_lt rest' n1 hc' nd h'
      linarith

theorem tiling_zero (E I : ℚ) : ∀ (l : List Node) (k : ℕ) (b : ℚ),
    (∀ nd ∈ l.tail, b < nd.x) →
    ((((buildElements E I k l).filter (fun el => decide (el.endNode.x ≤ b))).map
      (fun el => el.endNode.x - el.startNode.x)).sum) = 0
  | [], _, _, _ => rfl
  | [_], _, _, _ => rfl
  | n0 :: n1 :: rest, k, b, h => by
    rw [show buildElements E I k (n0 :: n1 :: rest) =
      (if qabs (n1.x - n0.x) > epsGeom then [Element.mk k n0 n1 E I] else []) ++
        buildElements E I (k + 1) (n1 :: rest) from rfl, List.filter_append]
    have hb1 : b < n1.x := h n1 (List.mem_cons_self _ _)
    have hrec := tiling_zero E I (n1 :: rest) (k + 1) b
      (fun nd hnd => h nd (List.mem_cons_of_mem _ hnd))
    by_cases hg : qabs (n1.x - n0.x) > epsGeom
    · rw [if_pos hg, List.filter_cons_of_neg
        (by simp only [decide_eq_true_eq]; exact not_le.mpr hb1),
        List.filter_nil, List.nil_append]
      exact hrec
    · rw [if_neg hg, List.filter_nil, List.nil_append]
      exact hrec

theorem tiling_from_head (E I : ℚ) : ∀ (rest : List Node) (n0 : Node) (k : ℕ) (b : ℚ),
    List.Chain' (fun p q : Node => epsGeom < q.x - p.x) (n0 :: rest) →
    b ∈ (n0 :: rest).map Node.x →
    ((((buildElements E I k (n0 :: rest)).filter
        (fun el => decide (el.endNode.x ≤ b))).map
      (fun el => el.endNode.x - el.startNode.x)).sum) = b - n0.x
  | [], n0, k, b, _, hb => by
    rcases List.mem_singleton.mp (by simpa using hb) with rfl
    show (0 : ℚ) = n0.x - n0.x
    rw [sub_self]
  | n1 :: rest', n0, k, b, hc, hb => by
    have heps : (0 : ℚ) < epsGeom := by norm_num [epsGeom]
    obtain ⟨h01, hc'⟩ := List.chain'_cons.mp hc
    rw [show buildElements E I k (n0 :: n1 :: rest') =
      (if qabs (n1.x - n0.x) > epsGeom then [Element.mk k n0 n1 E I] else []) ++
        buildElements E I (k + 1) (n1 :: rest') from rfl]
    have hq : qabs (n1.x - n0.x) = n1.x - n0.x := if_neg (not_lt.mpr (by linarith))
    rw [if_pos (by rw [hq]; exact h01), List.filter_append]
    have hb' : b = n0.x ∨ b ∈ (n1 :: rest').map Node.x := by
      rcases List.mem_cons.mp (by simpa only [List.map_cons] using hb) with h | h
      · exact Or.inl h
      · exact Or.inr h
    rcases hb' with rfl | hbT
    · rw [List.filter_cons_of_neg
        (by simp only [decide_eq_true_eq]; exact not_le.mpr (by linarith)),
        List.filter_nil, List.nil_append,
        tiling_zero E I (n1 :: rest') (k + 1) n0.x
          (fun nd hnd => lt_trans (by linarith) (chain_head_lt rest' n1 hc' nd hnd)),
        sub_self]
    · have hble : n1.x ≤ b := by
        rcases List.mem_cons.mp (by simpa only [List.map_cons] using hbT) with h | h
        · exact le_of_eq h.symm
        · obtain ⟨nd, hndmem, hndx⟩ := List.mem_map.mp h
          rw [← hndx]
          exact le_of_lt (chain_head_lt rest' n1 hc' nd hndmem)
      rw [List.filter_cons_of_pos (by simp only [decide_eq_true_eq]; exact hble),
        List.filter_nil, List.singleton_append, List.map_cons, List.sum_cons,
        tiling_from_head E I rest' n1 (k + 1) b hc' hbT]
      show n1.x - n0.x + (b - n1.x) = b - n0.x
      ring

theorem tiling_main (E I : ℚ) : ∀ (l : List Node) (k : ℕ) (a b : ℚ),
    List.Chain' (fun p q : Node => epsGeom < q.x - p.x) l →
    a ∈ l.map Node.x → b ∈ l.map Node.x → a ≤ b →
    ((((buildElements E I k l).filter
        (fun el => decide (a ≤ el.startNode.x ∧ el.endNode.x ≤ b))).map
      (fun el => el.endNode.x - el.startNode.x)).sum) = b - a
  | [], _, _, _, _, ha, _, _ => absurd ha (by simp)
  | n0 :: rest, k, a, b, hc, ha, hb, hab => by
    rcases List.mem_cons.mp (by simpa only [List.map_cons] using ha) with ha0 | haT
    · have hcong : (buildElements E I k (n0 :: rest)).filter
          (fun el => decide (n0.x ≤ el.startNode.x ∧ el.endNode.x ≤ b)) =
          (buildElements E I k (n0 :: rest)).filter
          (fun el => decide (el.endNode.x ≤ b)) := by
        apply List.filter_congr
        intro el hel
        have hge : n0.x ≤ el.startNode.x := by
          obtain ⟨m, hm1, _⟩ := buildElements_consec E I k _ el hel
          have hmem : el.startNode ∈ n0 :: rest := List.get?_mem hm1
          rcases List.mem_cons.mp hmem with heq | hmem'
          · rw [heq]
          · exact le_of_lt (chain_head_lt rest n0 hc _ hmem')
        rw [decide_eq_decide]
        exact and_iff_right hge
      rw [ha0, hcong, tiling_from_head E I rest n0 k b hc (by simpa using hb)]
    · cases rest with
      | nil => exact absurd haT (by simp)
      | cons n1 rest' =>
        have heps : (0 : ℚ) < epsGeom := by norm_num [epsGeom]
        obtain ⟨h01, hc'⟩ := List.chain'_cons.mp hc
        have ha0lt : n0.x < a := by
          obtain ⟨nd, hndmem, hndx⟩ := List.mem_map.mp haT
          rw [← hndx]
          exact chain_head_lt (n1 :: rest') n0 hc nd hndmem
        have hbT : b ∈ (n1 :: rest').map Node.x := by
          rcases List.mem_cons.mp (by simpa only [List.map_cons] using hb) with h | h
          · exact absurd (le_of_le_of_eq hab h) (not_le.mpr ha0lt)
          · exact h
        rw [show buildElements E I k (n0 :: n1 :: rest') =
          (if qabs (n1.x - n0.x) > epsGeom then [Element.mk k n0 n1 E I] else []) ++
            buildElements E I (k + 1) (n1 :: rest') from rfl]
        have hq : qabs (n1.x - n0.x) = n1.x - n0.x := if_neg (not_lt.mpr (by linarith))
        rw [if_pos (by rw [hq]; exact h01), List.filter_append,
          List.filter_cons_of_neg (by
            simp only [decide_eq_true_eq]
            rintro ⟨hcon, _⟩
            exact absurd hcon (not_le.mpr ha0lt)),
          List.filter_nil, List.nil_append]
        exact tiling_main E I (n1 :: rest') (k + 1) a b hc' haT hbT hab


theorem export_fy_sum_aux (R : ℕ → ℚ) : ∀ (l : List Node) (k : ℕ),
    ((((l.enumFrom k).filterMap (fun p =>
      if p.2.isRestrainedY || p.2.isRestrainedRotation then
        some (p.2.id, (⟨if p.2.isRestrainedY then R (2 * p.1) else 0,
                       if p.2.isRestrainedRotation then R (2 * p.1 + 1) else 0⟩ :
          NodeReaction))
      else none)).map (fun p => p.2.fy)).sum) =
      (((l.enumFrom k).map (fun p =>
        if p.2.isRestrainedY = true then R (2 * p.1) else 0)).sum)
  | [], _ => rfl
  | a :: rest, k => by
    rw [List.enumFrom_cons, List.filterMap_cons]
    dsimp only
    by_cases hR : (a.isRestrainedY || a.isRestrainedRotation) = true
    · rw [if_pos hR, List.map_cons, List.sum_cons, List.map_cons, List.sum_cons,
        export_fy_sum_aux R rest (k + 1)]
    · rw [if_neg hR, List.map_cons, List.sum_cons, export_fy_sum_aux R rest (k + 1)]
      have hY : a.isRestrainedY = false := by
        cases h2 : a.isRestrainedY
        · rfl
        · exact absurd (by rw [h2]; rfl) hR
      rw [if_neg (by rw [hY]; exact Bool.false_ne_true), zero_add]

theorem export_fy_sum (nodes : List Node) (u R : ℕ → ℚ) :
    (((exportResults nodes u R).reactions.map (fun p => p.2.fy)).sum) =
      ((nodes.enum.map (fun p =>
        if p.2.isRestrainedY = true then R (2 * p.1) else 0)).sum) := by
  unfold exportResults
  dsimp only
  rw [show nodes.enum = nodes.enumFrom 0 from rfl]
  exact export_fy_sum_aux R nodes 0

theorem enum_map_fst_sum (l : List Node) (h : ℕ → ℚ) :
    ((l.enum.map (fun p => h p.1)).sum) = ((List.range l.length).map h).sum := by
  rw [show (fun p : ℕ × Node => h p.1) = h ∘ Prod.fst from rfl, ← List.map_map,
    List.enum_map_fst]

theorem residual_free_eq_zero (nodes : List Node) (elements : List Element)
    (loads : List Load)
    (hdet : detL (freeDofs nodes).length (Kff nodes elements) ≠ 0)
    (r : ℕ) (hr : r ∈ freeDofs nodes) :
    residual nodes elements loads
      (globalU nodes (cramerSolve (freeDofs nodes).length (Kff nodes elements)
        (Ff nodes loads))) r = 0 := by
  unfold residual
  rw [listRangeSum]
  have hmask : ∀ c, assembleK nodes elements r c *
      globalU nodes (cramerSolve (freeDofs nodes).length (Kff nodes elements)
        (Ff nodes loads)) c =
      if c ∈ freeDofs nodes then assembleK nodes elements r c *
        globalU nodes (cramerSolve (freeDofs nodes).length (Kff nodes elements)
          (Ff nodes loads)) c else 0 := by
    intro c
    by_cases hc : c ∈ freeDofs nodes
    · rw [if_pos hc]
    · rw [if_neg hc]
      have hz : globalU nodes (cramerSolve (freeDofs nodes).length (Kff nodes elements)
          (Ff nodes loads)) c = 0 := by
        unfold globalU
        rw [dif_neg hc]
      rw [hz, mul_zero]
  rw [Finset.sum_congr rfl (fun c _ => hmask c),
    sum_masked (freeDofs nodes) (freeDofs_nodup nodes) (2 * nodes.length)
      (freeDofs_lt nodes) _, sum_fin_free]
  have huk : ∀ k : Fin (freeDofs nodes).length,
      globalU nodes (cramerSolve (freeDofs nodes).length (Kff nodes elements)
        (Ff nodes loads)) ((freeDofs nodes).get k) =
      cramerSolve (freeDofs nodes).length (Kff nodes elements) (Ff nodes loads) k := by
    intro k
    unfold globalU
    rw [dif_pos (List.get_mem _ _ _)]
    congr 1
    exact Fin.ext (indexOf_get_self (freeDofs_nodup nodes) k)
  obtain ⟨kr, hkr⟩ := List.mem_iff_get.mp hr
  have hsolve : (Kff nodes elements).mulVec
      (cramerSolve (freeDofs nodes).length (Kff nodes elements) (Ff nodes loads)) =
      Ff nodes loads :=
    cramerSolve_mulVec (freeDofs nodes).length (Kff nodes elements)
      (Ff nodes loads) hdet
  have hrow := congrFun hsolve kr
  have hsum : (∑ k : Fin (freeDofs nodes).length,
      assembleK nodes elements r ((freeDofs nodes).get k) *
        globalU nodes (cramerSolve (freeDofs nodes).length (Kff nodes elements)
          (Ff nodes loads)) ((freeDofs nodes).get k)) = Ff nodes loads kr := by
    rw [← hrow]
    show _ = ∑ j, Kff nodes elements kr j *
      cramerSolve (freeDofs nodes).length (Kff nodes elements) (Ff nodes loads) j
    apply Finset.sum_congr rfl
    intro k _
    rw [huk k, ← hkr]
    rfl
  rw [hsum]
  show Ff nodes loads kr - assembleF nodes loads r = 0
  rw [show Ff nodes loads kr =
    assembleF nodes loads ((freeDofs nodes).get kr) from rfl, hkr, sub_self]

theorem residual_even_sum (nodes : List Node) (elements : List Element)
    (loads : List Load) (u : ℕ → ℚ) (hn : 0 < nodes.length) :
    (∑ i in Finset.range nodes.length, residual nodes elements loads u (2 * i)) =
      -(∑ i in Finset.range nodes.length, assembleF nodes loads (2 * i)) := by
  unfold residual
  rw [Finset.sum_sub_distrib]
  have h1 : (∑ i in Finset.range nodes.length,
      ((List.range (2 * nodes.length)).map
        (fun c => assembleK nodes elements (2 * i) c * u c)).sum) = 0 := by
    rw [Finset.sum_congr rfl (fun i _ => listRangeSum (2 * nodes.length) _),
      Finset.sum_comm]
    apply Finset.sum_eq_zero
    intro c _
    rw [← Finset.sum_mul, assembleK_even_row nodes elements c hn, zero_mul]
  rw [h1, zero_sub]

theorem solve_ok_strong {nodes : List Node} {elements : List Element}
    {loads : List Load} {res : AnalysisResults}
    (hok : solve nodes elements loads = Except.ok res) :
    ∃ u : ℕ → ℚ, res = exportResults nodes u (residual nodes elements loads u) ∧
      ∀ r ∈ freeDofs nodes, residual nodes elements loads u r = 0 := by
  simp only [solve] at hok
  split at hok
  · cases hok
  · split at hok
    case isTrue hEmpty =>
      refine ⟨fun _ => 0, ?_, ?_⟩
      · injection hok with h
        exact h.symm
      · intro r hr
        rw [List.isEmpty_iff.mp hEmpty] at hr
        cases hr
    case isFalse hEmpty =>
      split at hok
      · cases hok
      case isFalse hdet =>
        refine ⟨globalU nodes (cramerSolve (freeDofs nodes).length
          (Kff nodes elements) (Ff nodes loads)), ?_, ?_⟩
        · injection hok with h
          exact h.symm
        · intro r hr
          apply residual_free_eq_zero
          · intro hzero
            apply hdet
            rw [hzero, show qabs 0 = (0 : ℚ) from rfl]
            norm_num [detThreshold]
          · exact hr


theorem load_x_mem_collect (input : BeamInput) (raw : BeamLoadInput) (x0 : ℚ)
    (hraw : raw ∈ input.loads) (hx : raw.x = some x0) :
    x0 ∈ collectPoints input := by
  unfold collectPoints
  rw [List.mem_append]
  refine Or.inr ?_
  rw [List.mem_flatMap]
  refine ⟨raw, hraw, ?_⟩
  rw [hx]
  exact List.mem_append.mpr (Or.inl (List.mem_append.mpr
    (Or.inl (List.mem_singleton.mpr rfl))))

theorem load_startX_mem_collect (input : BeamInput) (raw : BeamLoadInput) (a : ℚ)
    (hraw : raw ∈ input.loads) (hx : raw.startX = some a) :
    a ∈ collectPoints input := by
  unfold collectPoints
  rw [List.mem_append]
  refine Or.inr ?_
  rw [List.mem_flatMap]
  refine ⟨raw, hraw, ?_⟩
  rw [hx]
  exact List.mem_append.mpr (Or.inl (List.mem_append.mpr
    (Or.inr (List.mem_singleton.mpr rfl))))

theorem load_endX_mem_collect (input : BeamInput) (raw : BeamLoadInput) (b : ℚ)
    (hraw : raw ∈ input.loads) (hx : raw.endX = some b) :
    b ∈ collectPoints input := by
  unfold collectPoints
  rw [List.mem_append]
  refine Or.inr ?_
  rw [List.mem_flatMap]
  refine ⟨raw, hraw, ?_⟩
  rw [hx]
  exact List.mem_append.mpr (Or.inr (List.mem_singleton.mpr rfl))

theorem coord_node_exists (input : BeamInput) (x0 : ℚ)
    (hmem : x0 ∈ collectPoints input) (h0 : 0 ≤ x0) (h1 : x0 ≤ input.length) :
    ∃ nd ∈ meshNodes input, nd.x = x0 := by
  have hx : x0 ∈ meshCoords input := mem_meshCoords.mpr ⟨hmem, h0, h1⟩
  rw [← meshNodes_map_x] at hx
  obtain ⟨nd, hnd, hxx⟩ := List.mem_map.mp hx
  exact ⟨nd, hnd, hxx⟩

theorem chain_get?_rel {R : Node → Node → Prop} {l : List Node}
    (hc : List.Chain' R l) {m : ℕ} {a b : Node}
    (ha : l.get? m = some a) (hb : l.get? (m + 1) = some b) : R a b := by
  obtain ⟨hm1, hgb⟩ := List.get?_eq_some.mp hb
  obtain ⟨hm, hga⟩ := List.get?_eq_some.mp ha
  have hi : m < l.length - 1 := by omega
  have h2 := List.chain'_iff_get.mp hc m hi
  rw [← hga, ← hgb]
  exact h2

theorem mesh_element_gap (input : BeamInput) (el : Element)
    (hsep : FeatureSeparated input epsMerge)
    (hel : el ∈ buildElements input.E input.I 0 (meshNodes input)) :
    epsMerge < el.endNode.x - el.startNode.x := by
  obtain ⟨m, hm1, hm2⟩ := buildElements_consec input.E input.I 0 _ el hel
  exact chain_get?_rel (meshNodes_chain_sep input hsep) hm1 hm2


theorem sum_map_mul {α : Type} (c : ℚ) (f : α → ℚ) :
    ∀ l : List α, (l.map (fun x => c * f x)).sum = c * (l.map f).sum
  | [] => by simp
  | a :: rest => by
    rw [List.map_cons, List.sum_cons, List.map_cons, List.sum_cons,
      sum_map_mul c f rest]
    ring

theorem processOne_even_sum (input : BeamInput) (raw : BeamLoadInput)
    (hsep : FeatureSeparated input epsMerge)
    (hraw : raw ∈ input.loads)
    (hwp : loadWellPlaced input.length raw) :
    (((processOne (generateMesh input).elements raw).map
        (fun ld => ∑ i in Finset.range (meshNodes input).length,
          addLoadF (meshNodes input) (fun _ => 0) ld (2 * i))).sum) =
      (match raw.type with
       | LoadType.PointForce => raw.magnitude
       | LoadType.DistributedForce =>
           raw.magnitude * (raw.endX.getD 0 - raw.startX.getD 0)
       | LoadType.PointMoment => 0) := by
  rcases raw with ⟨rid, rty, rmag, rx, rsx, rex, rcat⟩
  cases rty with
  | PointForce =>
    cases rx with
    | none => exact False.elim hwp
    | some x0 =>
      have hx : 0 ≤ x0 ∧ x0 ≤ input.length := hwp
      unfold processOne
      dsimp only
      rw [List.map_cons, List.map_nil, List.sum_cons, List.sum_nil, add_zero]
      exact even_sum_pointForce _ _ _ _ _
        (meshNodes_len_pos input (le_trans hx.1 hx.2))
        (coord_node_exists input x0
          (load_x_mem_collect input _ x0 hraw rfl) hx.1 hx.2)
  | PointMoment =>
    cases rx with
    | none =>
      unfold processOne
      dsimp only
      rfl
    | some x0 =>
      unfold processOne
      dsimp only
      rw [List.map_cons, List.map_nil, List.sum_cons, List.sum_nil, add_zero]
      exact even_sum_pointMoment _ _ _ _ _
  | DistributedForce =>
    cases rsx with
    | none => exact False.elim hwp
    | some a =>
      cases rex with
      | none => exact False.elim hwp
      | some b =>
        obtain ⟨hab, ha0, hbl⟩ : a < b ∧ 0 ≤ a ∧ b ≤ input.length := hwp
        unfold processOne
        dsimp only
        rw [filterMap_if (fun el : Element => a - epsMerge ≤ el.startNode.x ∧
            el.endNode.x ≤ b + epsMerge)
          (fun el : Element =>
            Load.distributedForce rid rmag el.startNode.x el.endNode.x
              (rcat.getD LoadCategory.Dead)), List.map_map]
        have hamem : a ∈ collectPoints input :=
          load_startX_mem_collect input _ a hraw rfl
        have hbmem : b ∈ collectPoints input :=
          load_endX_mem_collect input _ b hraw rfl
        have hfcong : ((generateMesh input).elements).filter
            (fun el => decide (a - epsMerge ≤ el.startNode.x ∧
              el.endNode.x ≤ b + epsMerge)) =
            ((generateMesh input).elements).filter
            (fun el => decide (a ≤ el.startNode.x ∧ el.endNode.x ≤ b)) := by
          apply List.filter_congr
          intro el hel
          rw [decide_eq_decide]
          have helm : el ∈ buildElements input.E input.I 0 (meshNodes input) := by
            rwa [generateMesh_elements] at hel
          obtain ⟨m, hm1, hm2⟩ := buildElements_consec input.E input.I 0 _ el helm
          exact and_congr
            (sep_ge_iff input hsep a _ hamem
              (meshNodes_x_mem_collect input _ (List.get?_mem hm1)))
            (sep_le_iff input hsep b _ hbmem
              (meshNodes_x_mem_collect input _ (List.get?_mem hm2)))
        rw [hfcong]
        have hmapc : (((generateMesh input).elements).filter
            (fun el => decide (a ≤ el.startNode.x ∧ el.endNode.x ≤ b))).map
            ((fun ld => ∑ i in Finset.range (meshNodes input).length,
              addLoadF (meshNodes input) (fun _ => 0) ld (2 * i)) ∘
             (fun el => Load.distributedForce rid rmag el.startNode.x el.endNode.x
               (rcat.getD LoadCategory.Dead))) =
            (((generateMesh input).elements).filter
            (fun el => decide (a ≤ el.startNode.x ∧ el.endNode.x ≤ b))).map
            (fun el => rmag * (el.endNode.x - el.startNode.x)) := by
          apply List.map_congr_left
          intro el hel
          have helm : el ∈ buildElements input.E input.I 0 (meshNodes input) := by
            have h3 := List.mem_of_mem_filter hel
            rwa [generateMesh_elements] at h3
          obtain ⟨m, hm1, hm2⟩ := buildElements_consec input.E input.I 0 _ el helm
          have hgap := mesh_element_gap input el hsep helm
          show (∑ i in Finset.range (meshNodes input).length,
            addLoadF (meshNodes input) (fun _ => 0)
              (Load.distributedForce rid rmag el.startNode.x el.endNode.x
                (rcat.getD LoadCategory.Dead)) (2 * i)) = _
          rw [even_sum_distributed (meshNodes input) rid rmag el.startNode.x
            el.endNode.x _
            (by
              have h4 : epsGeom < epsMerge := by norm_num [epsGeom, epsMerge]
              linarith)
            (meshNodes_len_pos input (le_trans ha0 (le_trans (le_of_lt hab) hbl)))
            ⟨el.startNode, List.get?_mem hm1, rfl⟩
            ⟨el.endNode, List.get?_mem hm2, rfl⟩]
        rw [hmapc, sum_map_mul rmag (fun el : Element => el.endNode.x - el.startNode.x)]
        have hchain : List.Chain' (fun p q : Node => epsGeom < q.x - p.x)
            (meshNodes input) :=
          (meshNodes_chain_sep input hsep).imp (fun a b h => by
            have h4 : epsGeom < epsMerge := by norm_num [epsGeom, epsMerge]
            linarith)
        have hA : a ∈ (meshNodes input).map Node.x := by
          rw [meshNodes_map_x]
          exact mem_meshCoords.mpr ⟨hamem, ha0, le_trans (le_of_lt hab) hbl⟩
        have hB : b ∈ (meshNodes input).map Node.x := by
          rw [meshNodes_map_x]
          exact mem_meshCoords.mpr ⟨hbmem, le_trans ha0 (le_of_lt hab), hbl⟩
        rw [generateMesh_elements,
          tiling_main input.E input.I (meshNodes input) 0 a b hchain hA hB
            (le_of_lt hab)]
        rfl


/-- C1 (corrected): for an input whose collected feature coordinates are
pairwise either equal or more than `1e-4` apart, whose loads are all well
placed inside the span, and whose length is positive, a successful analysis
satisfies exact global vertical equilibrium: the exported reaction `fy`
values plus the applied vertical forces (point-force magnitudes plus
`w·(b−a)` per distributed load) sum to zero.  Without the separation
hypothesis the invariant fails: the `1e-4`-tolerant containment test of
`processLoads` can attach an element lying outside a distributed load's span
(see the counterexample). -/
theorem C1_global_equilibrium (input : BeamInput) (res : AnalysisResults)
    (hsep : FeatureSeparated input epsMerge)
    (hwp : ∀ l ∈ input.loads, loadWellPlaced input.length l)
    (hlen : 0 < input.length)
    (hok : analyze input = Except.ok res) :
    ((res.reactions.map (fun p => p.2.fy)).sum) + claimAppliedVertical input = 0 := by
  unfold analyze at hok
  dsimp only at hok
  obtain ⟨u, hres, hfree0⟩ := solve_ok_strong hok
  subst hres
  rw [export_fy_sum]
  have hn : 0 < (generateMesh input).nodes.length :=
    meshNodes_len_pos input (le_of_lt hlen)
  have hcongr : ((generateMesh input).nodes.enum.map (fun p =>
      if p.2.isRestrainedY = true then
        residual (generateMesh input).nodes (generateMesh input).elements
          (processLoads input.loads (generateMesh input).elements) u (2 * p.1)
      else 0)) =
      ((generateMesh input).nodes.enum.map (fun p =>
        residual (generateMesh input).nodes (generateMesh input).elements
          (processLoads input.loads (generateMesh input).elements) u (2 * p.1))) := by
    apply List.map_congr_left
    rintro ⟨i, nd⟩ hp
    dsimp only
    cases hY : nd.isRestrainedY with
    | true => rw [if_pos rfl]
    | false =>
      rw [if_neg Bool.false_ne_true]
      have hget : (generateMesh input).nodes.get? i = some nd := by
        have h5 := List.mk_mem_enumFrom_iff_le_and_getElem?_sub.mp (by
          rw [show (generateMesh input).nodes.enum =
            (generateMesh input).nodes.enumFrom 0 from rfl] at hp
          exact hp)
        rw [List.get?_eq_getElem?]
        simpa using h5.2
      exact (hfree0 (2 * i) (freeDofs_mem_iff.mpr
        ⟨i, nd, hget, Or.inl ⟨rfl, hY⟩⟩)).symm
  rw [hcongr, enum_map_fst_sum (generateMesh input).nodes
      (fun i => residual (generateMesh input).nodes (generateMesh input).elements
        (processLoads input.loads (generateMesh input).elements) u (2 * i)),
    listRangeSum, residual_even_sum _ _ _ u hn]
  have hF : (∑ i in Finset.range (generateMesh input).nodes.length,
      assembleF (generateMesh input).nodes
        (processLoads input.loads (generateMesh input).elements) (2 * i)) =
      claimAppliedVertical input := by
    unfold assembleF
    rw [assembleF_even_fold]
    have h0 : (∑ i in Finset.range (generateMesh input).nodes.length,
        (fun _ : ℕ => (0 : ℚ)) (2 * i)) = 0 := Finset.sum_const_zero
    rw [h0, zero_add]
    unfold processLoads
    rw [sum_map_flatMap]
    have hper : ∀ raw ∈ input.loads,
        (((processOne (generateMesh input).elements raw).map
          (fun ld => ∑ i in Finset.range (generateMesh input).nodes.length,
            addLoadF (generateMesh input).nodes (fun _ => 0) ld (2 * i))).sum) =
        (match raw.type with
         | LoadType.PointForce => raw.magnitude
         | LoadType.DistributedForce =>
             raw.magnitude * (raw.endX.getD 0 - raw.startX.getD 0)
         | LoadType.PointMoment => 0) := by
      intro raw hr
      exact processOne_even_sum input raw hsep hr (hwp raw hr)
    rw [List.map_congr_left hper]
    rfl
  rw [hF]
  ring

/-- Witness for C1: the fixed-fixed mid-span point-load beam `w1Input`
balances exactly: reactions `50 + 50` against the applied `-100`. -/
theorem C1_global_equilibrium_witness :
    ((w1Res.reactions.map (fun p => p.2.fy)).sum) + claimAppliedVertical w1Input = 0 := by
  refine C1_global_equilibrium w1Input w1Res ?_ ?_ (by norm_num [w1Input]) ?_
  · unfold FeatureSeparated
    have hcp : collectPoints w1Input = [0, 10, 0, 10, 5] := by
      with_unfolding_all rfl
    rw [hcp]
    norm_num [List.pairwise_cons, epsMerge, qabs]
  · intro l hl
    rcases List.mem_singleton.mp hl with rfl
    exact ⟨by norm_num, by norm_num [w1Input]⟩
  · with_unfolding_all rfl

/-- Counterexample to C1 as stated: in `c1Input` every load is well placed
(the point force at `4.99995` and the distributed load over `[5, 10]` lie
inside `[0, 10]`), yet the analysis succeeds with reactions summing to
`5100.05` against an applied total of `-5100`: the invariant misses by
exactly `1/20`, because the element `(4.99995, 5)` also passes the
`1e-4`-tolerant containment test and receives fixed-end actions for span
it does not cover. -/
theorem C1_counterexample_tolerant_containment :
    analyze c1Input = Except.ok c1Res ∧
    (∀ l ∈ c1Input.loads, loadWellPlaced c1Input.length l) ∧
    ((c1Res.reactions.map (fun p => p.2.fy)).sum) + claimAppliedVertical c1Input =
      1 / 20 ∧
    (1 / 20 : ℚ) ≠ 0 := by
  refine ⟨by with_unfolding_all rfl, ?_, by with_unfolding_all rfl, by norm_num⟩
  intro l hl
  rcases List.mem_cons.mp hl with rfl | hl2
  · exact ⟨by norm_num, by norm_num [c1Input]⟩
  · rcases List.mem_singleton.mp hl2 with rfl
    exact ⟨by norm_num, by norm_num, by norm_num [c1Input]⟩


/-! ## Out-of-domain features (C5): amended behavior -/

theorem meshCoords_ext (input input' : BeamInput)
    (hlen : input'.length = input.length)
    (h : ∀ x, 0 ≤ x → x ≤ input.length →
        (x ∈ collectPoints input' ↔ x ∈ collectPoints input)) :
    meshCoords input' = meshCoords input := by
  apply List.eq_of_perm_of_sorted _ (meshCoords_sorted_le input')
    (meshCoords_sorted_le input)
  rw [List.perm_ext_iff_of_nodup (meshCoords_nodup input') (meshCoords_nodup input)]
  intro x
  rw [mem_meshCoords, mem_meshCoords, hlen]
  constructor
  · rintro ⟨hc, h0, h1⟩
    exact ⟨(h x h0 h1).mp hc, h0, h1⟩
  · rintro ⟨hc, h0, h1⟩
    exact ⟨(h x h0 h1).mpr hc, h0, h1⟩

theorem collectPoints_cons_support (input : BeamInput) (s : Support) (x : ℚ) :
    x ∈ collectPoints { input with supports := s :: input.supports } ↔
      x = s.x ∨ x ∈ collectPoints input := by
  unfold collectPoints
  dsimp only
  simp only [List.map_cons, List.mem_append, List.mem_cons]
  tauto

theorem collectPoints_cons_pointload (input : BeamInput) (lid : ℕ) (mag x0 : ℚ)
    (cat : Option LoadCategory) (x : ℚ) :
    x ∈ collectPoints { input with loads :=
        ⟨lid, LoadType.PointForce, mag, some x0, none, none, cat⟩ :: input.loads } ↔
      x = x0 ∨ x ∈ collectPoints input := by
  unfold collectPoints
  dsimp only
  rw [List.flatMap_cons]
  simp only [Option.toList_some, Option.toList_none, List.mem_append,
    List.mem_cons, List.mem_singleton, List.not_mem_nil]
  tauto

theorem mem_of_mem_enum {α : Type} {l : List α} {p : ℕ × α} (hp : p ∈ l.enum) :
    p.2 ∈ l := by
  rcases p with ⟨i, x⟩
  have h5 := List.mk_mem_enumFrom_iff_le_and_getElem?_sub.mp hp
  exact List.get?_mem (by rw [List.get?_eq_getElem?]; simpa using h5.2)

theorem meshNodes_cons_far_support (input : BeamInput) (s : Support)
    (hfar : s.x < -epsMerge ∨ input.length + epsMerge < s.x) :
    meshNodes { input with supports := s :: input.supports } = meshNodes input := by
  have heps : (0 : ℚ) < epsMerge := by norm_num [epsMerge]
  have hcoords : meshCoords { input with supports := s :: input.supports } =
      meshCoords input := by
    refine meshCoords_ext input { input with supports := s :: input.supports } rfl ?_
    intro x h0 h1
    rw [collectPoints_cons_support]
    constructor
    · rintro (rfl | h)
      · rcases hfar with h2 | h2 <;> linarith
      · exact h
    · exact Or.inr
  rw [meshNodes_eq_enum_map, meshNodes_eq_enum_map, hcoords]
  apply List.map_congr_left
  intro p hp
  have hpx : p.2 ∈ meshCoords input := mem_of_mem_enum hp
  obtain ⟨_, h0, h1⟩ := mem_meshCoords.mp hpx
  have hAt : supportAt ({ input with supports := s :: input.supports }).supports p.2 =
      supportAt input.supports p.2 := by
    show supportAt (s :: input.supports) p.2 = supportAt input.supports p.2
    unfold supportAt
    rw [List.find?_cons_of_neg]
    simp only [decide_eq_true_eq]
    intro hcon
    rcases hfar with h2 | h2
    · rw [show qabs (s.x - p.2) = -(s.x - p.2) from if_pos (by linarith)] at hcon
      linarith
    · rw [show qabs (s.x - p.2) = s.x - p.2 from
        if_neg (not_lt.mpr (by linarith))] at hcon
      linarith
  rw [hAt]

theorem meshNodes_cons_far_pointload (input : BeamInput) (lid : ℕ) (mag x0 : ℚ)
    (cat : Option LoadCategory)
    (hfar : x0 < -epsFind ∨ input.length + epsFind < x0) :
    meshNodes { input with loads :=
        ⟨lid, LoadType.PointForce, mag, some x0, none, none, cat⟩ :: input.loads } =
      meshNodes input := by
  have heps : (0 : ℚ) < epsFind := by norm_num [epsFind]
  have hcoords : meshCoords { input with loads :=
      ⟨lid, LoadType.PointForce, mag, some x0, none, none, cat⟩ :: input.loads } =
      meshCoords input := by
    refine meshCoords_ext input { input with loads :=
      ⟨lid, LoadType.PointForce, mag, some x0, none, none, cat⟩ :: input.loads } rfl ?_
    intro x h0 h1
    rw [collectPoints_cons_pointload]
    constructor
    · rintro (rfl | h)
      · rcases hfar with h2 | h2 <;> linarith
      · exact h
    · exact Or.inr
  rw [meshNodes_eq_enum_map, meshNodes_eq_enum_map, hcoords]

theorem findNodeNear_far (nodes : List Node) (x0 len : ℚ)
    (hbound : ∀ nd ∈ nodes, 0 ≤ nd.x ∧ nd.x ≤ len)
    (hfar : x0 < -epsFind ∨ len + epsFind < x0) :
    findNodeNear nodes x0 = none := by
  have heps : (0 : ℚ) < epsFind := by norm_num [epsFind]
  unfold findNodeNear
  rw [List.find?_eq_none]
  intro nd hnd
  simp only [decide_eq_true_eq]
  intro hcon
  obtain ⟨h0, h1⟩ := hbound nd hnd
  rcases hfar with h2 | h2
  · rw [show qabs (nd.x - x0) = nd.x - x0 from
      if_neg (not_lt.mpr (by linarith))] at hcon
    linarith
  · rw [show qabs (nd.x - x0) = -(nd.x - x0) from if_pos (by linarith)] at hcon
    linarith

theorem solve_extra_pointForce (nodes : List Node) (elements : List Element)
    (loads : List Load) (lid : ℕ) (mag x0 : ℚ) (cat : LoadCategory)
    (hnone : findNodeNear nodes x0 = none) :
    solve nodes elements (Load.pointForce lid mag x0 cat :: loads) =
      solve nodes elements loads := by
  have hstep : addLoadF nodes (fun _ => 0) (Load.pointForce lid mag x0 cat) =
      (fun _ => 0) := by
    unfold addLoadF
    dsimp only
    rw [hnone]
  have hF : assembleF nodes (Load.pointForce lid mag x0 cat :: loads) =
      assembleF nodes loads := by
    unfold assembleF
    rw [List.foldl_cons, hstep]
  have hres : residual nodes elements (Load.pointForce lid mag x0 cat :: loads) =
      residual nodes elements loads := by
    funext u r
    unfold residual
    rw [hF]
  have hFf : Ff nodes (Load.pointForce lid mag x0 cat :: loads) = Ff nodes loads := by
    funext i
    unfold Ff
    rw [hF]
  simp only [solve]
  rw [hres, hFf]


/-- C5 (corrected): the error type contains no `OutOfDomain` case at all, and
an out-of-domain feature does not abort the analysis — prepending a support
whose coordinate lies more than `1e-4` outside `[0, length]`, or a point load
whose coordinate lies more than `1e-3` outside, leaves the analysis result
exactly unchanged: the feature is silently dropped (the mesh filter discards
the coordinate and the solver finds no node near the load). -/
theorem C5_out_of_domain (input : BeamInput) :
    (∀ e : BeamError,
      e = BeamError.invalidStiffness ∨ e = BeamError.unstableStructure) ∧
    (∀ s : Support, (s.x < -epsMerge ∨ input.length + epsMerge < s.x) →
      analyze { input with supports := s :: input.supports } = analyze input) ∧
    (∀ (lid : ℕ) (mag x0 : ℚ) (cat : Option LoadCategory),
      (x0 < -epsFind ∨ input.length + epsFind < x0) →
      analyze { input with loads :=
        ⟨lid, LoadType.PointForce, mag, some x0, none, none, cat⟩ :: input.loads } =
        analyze input) := by
  refine ⟨?_, ?_, ?_⟩
  · intro e
    cases e
    · exact Or.inl rfl
    · exact Or.inr rfl
  · intro s hfar
    have hnodes := meshNodes_cons_far_support input s hfar
    have hgen : generateMesh { input with supports := s :: input.supports } =
        generateMesh input := by
      unfold generateMesh
      dsimp only
      rw [hnodes]
    unfold analyze
    dsimp only
    rw [hgen]
  · intro lid mag x0 cat hfar
    have hnodes := meshNodes_cons_far_pointload input lid mag x0 cat hfar
    have hgen : generateMesh { input with loads :=
        ⟨lid, LoadType.PointForce, mag, some x0, none, none, cat⟩ :: input.loads } =
        generateMesh input := by
      unfold generateMesh
      dsimp only
      rw [hnodes]
    have hbound : ∀ nd ∈ (generateMesh input).nodes,
        0 ≤ nd.x ∧ nd.x ≤ input.length := by
      intro nd hnd
      rw [generateMesh_nodes] at hnd
      have hx : nd.x ∈ meshCoords input := by
        rw [← meshNodes_map_x]
        exact List.mem_map_of_mem _ hnd
      obtain ⟨_, h0, h1⟩ := mem_meshCoords.mp hx
      exact ⟨h0, h1⟩
    unfold analyze
    dsimp only
    rw [hgen]
    show solve (generateMesh input).nodes (generateMesh input).elements
      (processLoads (⟨lid, LoadType.PointForce, mag, some x0, none, none, cat⟩ ::
        input.loads) (generateMesh input).elements) = _
    unfold processLoads
    rw [List.flatMap_cons]
    show solve (generateMesh input).nodes (generateMesh input).elements
      (Load.pointForce lid mag x0 (cat.getD LoadCategory.Dead) ::
        input.loads.flatMap (processOne (generateMesh input).elements)) = _
    rw [solve_extra_pointForce _ _ _ lid mag x0 _
      (findNodeNear_far _ x0 input.length hbound hfar)]

/-- Witness for C5: adding a support at `-1` or a point load at `11` to the
span-`[0,10]` beam `w1Input` leaves the analysis unchanged. -/
theorem C5_out_of_domain_witness :
    analyze { w1Input with supports := ⟨-1, SupportType.Pin⟩ :: w1Input.supports } =
      analyze w1Input ∧
    analyze { w1Input with loads :=
        ⟨7, LoadType.PointForce, -50, some 11, none, none, none⟩ :: w1Input.loads } =
      analyze w1Input :=
  ⟨(C5_out_of_domain w1Input).2.1 ⟨-1, SupportType.Pin⟩
      (Or.inl (by norm_num [epsMerge])),
   (C5_out_of_domain w1Input).2.2 7 (-50) 11 none
      (Or.inr (by norm_num [w1Input, epsFind]))⟩

end BeamApp
